import Mathlib

/-!
# textproto-validator

A shallow embedding of `textproto-validator.go`: the header extractor
(`extractHeaders`), the type resolver (`findMessage`) and the orchestration
(`validateTextproto`), followed by the properties of the specification that
are settled on it.

Go values are represented as follows.

* a Go `string` / `[]byte` is a list of bytes (`GoString`);
* a Go `error` is a `GoError`; its `Error()` text is `GoError.Error`;
* `(string, string, error)` is the record `HeaderResult`;
* a returned `error` that may be `nil` is an `Option GoError`;
* `(T, error)` is `Except GoError T`.

The standard-library functions the program calls (`bufio.Scanner` with the
default `ScanLines` split function, `strings.TrimSpace`, `strings.Fields`,
`strings.HasPrefix`, `utf8.DecodeRune`, `unicode.IsSpace`) are embedded
from the behaviour of the Go standard library.  The schema compiler
(`protoparse.Parser.ParseFiles`) and the text-format decoder
(`prototext.Unmarshal`) are external collaborators and stay abstract.

Two notions of line are kept apart.  `inputLines` are the lines of the input
as the specification speaks of them, cut at the line feeds and of any length,
and `headerBlock` is built on them.  `scanLines` are the lines that the
scanner delivers to the loop of `extractHeaders`: a carriage return before
the line feed is dropped, which the trimming of the loop makes immaterial,
and the scanner gives up at a line of 65536 bytes or more, where the loop,
which never reads `scanner.Err()`, ends as at the end of the input.  The loop
sees the whole header block when its lines fit the buffer of the scanner
(`headerLinesFit`).
-/

namespace TextprotoValidator

/-! ## Strings and errors -/

/-- A Go string or byte slice: a finite sequence of bytes. -/
abbrev GoString := List UInt8

/-- The bytes of a Go string literal (Go source text is UTF-8). -/
def lit (s : String) : GoString := s.toList.flatMap String.utf8EncodeChar

/-- A Go error value.  `new msg` is what `errors.New(msg)` and a `fmt.Errorf`
without `%w` build; `wrap msg cause` is what `fmt.Errorf` with a `%w` verb
builds (the text `msg` already contains the text of `cause`). -/
inductive GoError where
  | new (msg : GoString)
  | wrap (msg : GoString) (cause : GoError)
deriving DecidableEq

/-- The method `Error()` of a Go error: its message. -/
def GoError.Error : GoError → GoString
  | .new msg => msg
  | .wrap msg _ => msg

/-- The verb `%d` of package `fmt` applied to a non-negative `int`. -/
def formatInt (n : Nat) : GoString := lit (Nat.repr n)

/-! ## UTF-8 and white space (packages `unicode/utf8`, `unicode`) -/

/-- The rune `utf8.RuneError`, U+FFFD. -/
def runeError : Nat := 0xFFFD

/-- The function `utf8.DecodeRune`: the first rune of `p` and its width in bytes.
An empty input gives `(RuneError, 0)`, an invalid or incomplete encoding
`(RuneError, 1)`.  The second byte is checked against the accept range of
the first byte, which excludes over-long encodings, surrogates and code
points above U+10FFFF. -/
def decodeRune : GoString → Nat × Nat
  | [] => (runeError, 0)
  | p0 :: rest =>
    let c := p0.toNat
    if c < 0x80 then (c, 1)
    else if c < 0xC2 ∨ 0xF4 < c then (runeError, 1)
    else
      let lo := if c = 0xE0 then 0xA0 else if c = 0xF0 then 0x90 else 0x80
      let hi := if c = 0xED then 0x9F else if c = 0xF4 then 0x8F else 0xBF
      match rest with
      | [] => (runeError, 1)
      | b1 :: rest1 =>
        if b1.toNat < lo ∨ hi < b1.toNat then (runeError, 1)
        else if c < 0xE0 then (c % 32 * 64 + b1.toNat % 64, 2)
        else
          match rest1 with
          | [] => (runeError, 1)
          | b2 :: rest2 =>
            if b2.toNat < 0x80 ∨ 0xBF < b2.toNat then (runeError, 1)
            else if c < 0xF0 then
              (c % 16 * 4096 + b1.toNat % 64 * 64 + b2.toNat % 64, 3)
            else
              match rest2 with
              | [] => (runeError, 1)
              | b3 :: _ =>
                if b3.toNat < 0x80 ∨ 0xBF < b3.toNat then (runeError, 1)
                else
                  (c % 8 * 262144 + b1.toNat % 64 * 4096 + b2.toNat % 64 * 64
                    + b3.toNat % 64, 4)

/-- The function `utf8.RuneStart`: `b` is not a continuation byte. -/
def runeStart (b : UInt8) : Bool := b.toNat / 64 ≠ 2

/-- The function `utf8.DecodeLastRune`: the last rune of `p` and its width.  The
start of the rune is looked for among the last four bytes; the bytes from
there must decode to one rune that ends exactly at the end of `p`. -/
def decodeLastRune (p : GoString) : Nat × Nat :=
  match p.getLast? with
  | none => (runeError, 0)
  | some l =>
    if l.toNat < 0x80 then (l.toNat, 1)
    else
      let e := p.length
      let start :=
        match ([2, 3, 4].filter (fun k => k ≤ e)).find?
            (fun k => runeStart (p.getD (e - k) 0)) with
        | some k => e - k
        | none => e - 5
      let d := decodeRune (p.drop start)
      if start + d.2 ≠ e then (runeError, 1) else d

/-- The function `unicode.IsSpace`: the white-space runes of Unicode. -/
def isSpace (r : Nat) : Bool :=
  r = 0x09 ∨ r = 0x0A ∨ r = 0x0B ∨ r = 0x0C ∨ r = 0x0D ∨ r = 0x20 ∨
  r = 0x85 ∨ r = 0xA0 ∨ r = 0x1680 ∨ (0x2000 ≤ r ∧ r ≤ 0x200A) ∨
  r = 0x2028 ∨ r = 0x2029 ∨ r = 0x202F ∨ r = 0x205F ∨ r = 0x3000

/-! ## Package `strings` -/

/-- The loop of `strings.TrimLeftFunc(s, unicode.IsSpace)`: the runes of `s` are
visited from the left and the string from the first rune that is not white
space is returned.  `skip` is the number of bytes of the white-space rune
being visited that are still to be passed. -/
def trimLeftLoop : Nat → GoString → GoString
  | _, [] => []
  | skip + 1, _ :: rest => trimLeftLoop skip rest
  | 0, b :: rest =>
    let d := decodeRune (b :: rest)
    if isSpace d.1 then trimLeftLoop (d.2 - 1) rest else b :: rest

/-- The function `strings.TrimLeftFunc(s, unicode.IsSpace)`. -/
def TrimLeftSpace (s : GoString) : GoString := trimLeftLoop 0 s

/-- The loop of `lastIndexFunc(s, unicode.IsSpace, false)` over the reversed
string: the runes are visited from the right with `utf8.DecodeLastRune` and
the index at which the last rune that is not white space starts is returned,
`none` standing for -1. -/
def lastIndexLoop : Nat → GoString → Option Nat
  | _, [] => none
  | skip + 1, _ :: rest => lastIndexLoop skip rest
  | 0, b :: rest =>
    let d := decodeLastRune (b :: rest).reverse
    if isSpace d.1 then lastIndexLoop (d.2 - 1) rest
    else some ((b :: rest).length - d.2)

/-- The function `strings.TrimRightFunc(s, unicode.IsSpace)`: `s` up to the end of
its last rune that is not white space. -/
def TrimRightSpace (s : GoString) : GoString :=
  match lastIndexLoop 0 s.reverse with
  | none => []
  | some i =>
    if 0x80 ≤ (s.getD i 0).toNat then s.take (i + (decodeRune (s.drop i)).2)
    else s.take (i + 1)

/-- The function `strings.TrimSpace`: `s` without its leading and trailing white
space, as defined by Unicode.  (The library strips ASCII white space in a
fast loop and hands over to `TrimFunc(s, unicode.IsSpace)` at the first
byte that is not ASCII; both compute the string below.) -/
def TrimSpace (s : GoString) : GoString := TrimRightSpace (TrimLeftSpace s)

/-- The function `strings.HasPrefix`. -/
def HasPrefix (s pre : GoString) : Bool := pre.isPrefixOf s

/-- The loop of `strings.FieldsFunc(s, unicode.IsSpace)`: the runes of `s` are
visited from the left; `cur` is the field being collected, `skip` the number
of bytes of the current rune still to be passed and `sp` tells whether that
rune is white space. -/
def fieldsLoop : Nat → Bool → GoString → GoString → List GoString
  | _, _, cur, [] => if cur = [] then [] else [cur]
  | skip + 1, sp, cur, b :: rest =>
    if sp then fieldsLoop skip sp cur rest
    else fieldsLoop skip sp (cur ++ [b]) rest
  | 0, _, cur, b :: rest =>
    let d := decodeRune (b :: rest)
    if isSpace d.1 then
      if cur = [] then fieldsLoop (d.2 - 1) true [] rest
      else cur :: fieldsLoop (d.2 - 1) true [] rest
    else fieldsLoop (d.2 - 1) false (cur ++ [b]) rest

/-- The function `strings.Fields`: the maximal runs of runes of `s` that are not
white space, in order.  (For a string of ASCII bytes only the library takes
a fast path that computes the same list.) -/
def Fields (s : GoString) : List GoString := fieldsLoop 0 false [] s

/-! ## Package `bufio`: a `Scanner` with the split function `ScanLines` -/

/-- The constant `bufio.MaxScanTokenSize`: the size to which the buffer of a
`Scanner` may grow. -/
def maxScanTokenSize : Nat := 64 * 1024

/-- The function `dropCR` of package `bufio`: drops a terminal carriage return. -/
def dropCR (data : GoString) : GoString :=
  if data.getLast? = some 0x0D then data.dropLast else data

/-- The tokens that successive calls of `Scanner.Scan` deliver, `cur` being the
bytes of the current line read so far.  A line ends at a line feed or at the
end of the input; an empty rest at the end of the input is no line.  A line
with `maxScanTokenSize` or more bytes before its line feed does not fit the
buffer: `Scan` returns `false` there with `ErrTooLong` and delivers no
further token. -/
def scanLinesFrom : GoString → GoString → List GoString
  | cur, [] =>
    if cur = [] then []
    else if maxScanTokenSize ≤ cur.length then []
    else [dropCR cur]
  | cur, b :: rest =>
    if b = 0x0A then
      if maxScanTokenSize ≤ cur.length then []
      else dropCR cur :: scanLinesFrom [] rest
    else scanLinesFrom (cur ++ [b]) rest

/-- The lines of `input` as `bufio.NewScanner(bytes.NewReader(input))` delivers
them, one per successful call of `Scan`. -/
def scanLines (input : GoString) : List GoString := scanLinesFrom [] input

/-! ## `extractHeaders` -/

/-- The three results `(string, string, error)` of `extractHeaders`. -/
structure HeaderResult where
  protoFile : GoString
  protoMsg : GoString
  err : Option GoError
deriving DecidableEq

/-- The end of `extractHeaders`, after its loop: both values must be set. -/
def finishHeaders (protoFile protoMsg : GoString) : HeaderResult :=
  if protoFile = [] then
    ⟨[], [], some (.new (lit "could not find proto-file comment"))⟩
  else if protoMsg = [] then
    ⟨[], [], some (.new (lit "could not find proto-message comment"))⟩
  else ⟨protoFile, protoMsg, none⟩

/-- The loop of `extractHeaders` over the lines the scanner still delivers;
`line` is the loop counter, `protoFile` and `protoMsg` the two variables. -/
def headerLoop : List GoString → Nat → GoString → GoString → HeaderResult
  | [], _, protoFile, protoMsg => finishHeaders protoFile protoMsg
  | l :: rest, line, protoFile, protoMsg =>
    let text := TrimSpace l
    if !HasPrefix text (lit "#") then finishHeaders protoFile protoMsg
    else
      match Fields text with
      | [_, key, value] =>
        if key = lit "proto-file:" then
          if protoFile ≠ [] then
            ⟨[], [], some (.new (lit "duplicate proto-file at line " ++ formatInt line))⟩
          else headerLoop rest (line + 1) value protoMsg
        else if key = lit "proto-message:" then
          if protoMsg ≠ [] then
            ⟨[], [], some (.new (lit "duplicate proto-message at line " ++ formatInt line))⟩
          else headerLoop rest (line + 1) protoFile value
        else headerLoop rest (line + 1) protoFile protoMsg
      | _ => headerLoop rest (line + 1) protoFile protoMsg

/-- The function `extractHeaders`: the proto-file and proto-message values of
`input`. -/
def extractHeaders (input : GoString) : HeaderResult :=
  headerLoop (scanLines input) 0 [] []

/-! ## External collaborators -/

/-- The interface `fileReader`: whole-file read and open-for-reading, both by
path.  What `Open` returns is read by the schema compiler only; it is
represented by the bytes it yields. -/
structure fileReader where
  ReadFile : GoString → Except GoError GoString
  Open : GoString → Except GoError GoString

/-- The type `fakeFileReader` of the tests: a map from names to contents;
`ReadFile` and `Open` fail with "unknown file <name>" for a name that is not
in the map. -/
def fakeFileReader (data : List (GoString × GoString)) : fileReader :=
  let get := fun (name : GoString) =>
    match data.lookup name with
    | some b => Except.ok b
    | none => Except.error (GoError.new (lit "unknown file " ++ name))
  ⟨get, get⟩

/-- A message descriptor (`protoreflect.MessageDescriptor`) as far as the
program uses it: `name` is its `protoreflect.Name`, the short name of the
declaration, and `fullName` its package-qualified name. -/
structure MessageDescriptor where
  name : GoString
  fullName : GoString
deriving DecidableEq

/-- A compiled schema file (`protoreflect.FileDescriptor`): its package and its
top-level message declarations, in declaration order. -/
structure FileDescriptor where
  package : GoString
  messages : List MessageDescriptor
deriving DecidableEq

/-- The method `Messages().ByName(s)` of a file descriptor: the top-level message
whose short name is `s`, or `nil` (`none`) if there is none. -/
def FileDescriptor.ByName (fd : FileDescriptor) (s : GoString) :
    Option MessageDescriptor :=
  fd.messages.find? (fun md => md.name = s)

/-- A dynamic message (`dynamicpb.Message`): its type and the fields that are
populated, by field name. -/
structure Message where
  descriptor : MessageDescriptor
  populated : List (GoString × GoString)
deriving DecidableEq

/-- The function `dynamicpb.NewMessage`: a new, empty message of type `md`. -/
def NewMessage (md : MessageDescriptor) : Message := ⟨md, []⟩

/-- The two libraries the program delegates to, and the import path it hands to
the first.  `ParseFiles importPaths accessor file` is the schema compiler
(`protoparse.Parser`) and `Unmarshal b m` the text-format decoder
(`prototext.Unmarshal`), of which only the returned error is used. -/
structure Libraries where
  importPath : List GoString
  ParseFiles : List GoString → (GoString → Except GoError GoString) → GoString →
    Except GoError (List FileDescriptor)
  Unmarshal : GoString → Message → Option GoError

/-! ## `findMessage` and `validateTextproto` -/

/-- The loop of `findMessage` over the compiled files. -/
def findInFiles : List FileDescriptor → GoString → Except GoError Message
  | [], _ => .error (.new (lit "message not found"))
  | fd :: rest, protoMsg =>
    match fd.ByName protoMsg with
    | none => findInFiles rest protoMsg
    | some protoMd => .ok (NewMessage protoMd)

/-- The function `findMessage`: parses `protoFile`, searching for `protoMsg` and
returning it if found. -/
def findMessage (lib : Libraries) (reader : fileReader)
    (protoFile protoMsg : GoString) : Except GoError Message :=
  match lib.ParseFiles lib.importPath reader.Open protoFile with
  | .error err => .error err
  | .ok fds => findInFiles fds protoMsg

/-- The function `validateTextproto`; `none` is the `nil` error. -/
def validateTextproto (lib : Libraries) (reader : fileReader)
    (txtpb : GoString) : Option GoError :=
  match reader.ReadFile txtpb with
  | .error err => some err
  | .ok b =>
    match extractHeaders b with
    | ⟨_, _, some err⟩ => some err
    | ⟨protoFile, protoMsg, none⟩ =>
      match findMessage lib reader protoFile protoMsg with
      | .error err =>
        some (.new (lit "failed to find message " ++ protoMsg ++ lit " in "
          ++ protoFile ++ lit ": " ++ err.Error))
      | .ok protoMessage =>
        match lib.Unmarshal b protoMessage with
        | some err => some (.wrap (lit "unmarshal failure: " ++ err.Error) err)
        | none => none

/-! ## Vocabulary of the specification -/

/-- The key token of the schema-path directive. -/
def keyFile : GoString := lit "proto-file:"

/-- The key token of the message-type directive. -/
def keyMessage : GoString := lit "proto-message:"

/-- A line belongs to the header block: its white-space-trimmed text starts with
the comment marker. -/
def isHeaderLine (l : GoString) : Bool := HasPrefix (TrimSpace l) (lit "#")

/-- The lines of the input from a position on, `cur` being the bytes of the
current line read so far: the input is cut at every line feed, and the bytes
after the last line feed are a last line unless there are none. -/
def inputLinesFrom : GoString → GoString → List GoString
  | cur, [] => if cur = [] then [] else [cur]
  | cur, b :: rest =>
    if b = 0x0A then cur :: inputLinesFrom [] rest
    else inputLinesFrom (cur ++ [b]) rest

/-- The lines of the input, whatever their length. -/
def inputLines (input : GoString) : List GoString := inputLinesFrom [] input

/-- The header block: the maximal prefix of the lines of the input whose trimmed
text starts with the comment marker. -/
def headerBlock (input : GoString) : List GoString :=
  (inputLines input).takeWhile isHeaderLine

/-- Every line of the header block has fewer bytes than the buffer of the
scanner holds, that is fewer than 65536. -/
def headerLinesFit (input : GoString) : Bool :=
  (headerBlock input).all (fun l => l.length < maxScanTokenSize)

/-- The value of a directive line for `key`: the line splits into exactly three
white-space-delimited fields, the second of which is `key`; the value is the
third. -/
def directiveValue (key l : GoString) : Option GoString :=
  match Fields (TrimSpace l) with
  | [_, k, v] => if k = key then some v else none
  | _ => none

/-- The line is a directive line for `key`. -/
def isDirective (key l : GoString) : Bool := (directiveValue key l).isSome

/-- The number of directive lines for `key` among `ls`. -/
def directiveCount (key : GoString) (ls : List GoString) : Nat :=
  ls.countP (isDirective key)

/-- The error of a missing schema-path directive. -/
def errNoFile : GoError := .new (lit "could not find proto-file comment")

/-- The error of a missing message-type directive. -/
def errNoMessage : GoError := .new (lit "could not find proto-message comment")

/-- The error of a second schema-path directive at line `n`. -/
def errDupFile (n : Nat) : GoError :=
  .new (lit "duplicate proto-file at line " ++ formatInt n)

/-- The error of a second message-type directive at line `n`. -/
def errDupMessage (n : Nat) : GoError :=
  .new (lit "duplicate proto-message at line " ++ formatInt n)

/-- One if the variable holds a value, zero if it is still the empty string. -/
def setCount (s : GoString) : Nat := if s = [] then 0 else 1

/-- The value of the first directive line for `key` among `ls`, the empty string
if there is none. -/
def firstValue (key : GoString) (ls : List GoString) : GoString :=
  (ls.findSome? (directiveValue key)).getD []

/-- The text that `validateTextproto` puts before the cause of a resolution
failure. -/
def resolveContext (protoMsg protoFile : GoString) : GoString :=
  lit "failed to find message " ++ protoMsg ++ lit " in " ++ protoFile ++ lit ": "

/-! ## Inputs with a long line -/

/-- A comment line of `maxScanTokenSize` bytes: 65536 times the comment marker. -/
@[irreducible] def longLine : GoString := List.replicate maxScanTokenSize 0x23

/-- A long comment line, then one directive line of each key. -/
def longFirstInput : GoString :=
  longLine ++ 0x0A :: lit "# proto-file: a\n# proto-message: B\n"

/-- Two directive lines for `proto-file:` with a long comment line between
them. -/
def longBetweenInput : GoString :=
  lit "# proto-file: a\n" ++ (longLine ++ 0x0A :: lit "# proto-file: b\n")

/-- A long comment line, then a directive line for `proto-file:`. -/
def longBeforeFileInput : GoString :=
  longLine ++ 0x0A :: lit "# proto-file: a\n"

/-! ## The files of the tests -/

/-- The descriptor of message `Example` of the test schema `valid.proto`, whose
package is `foo.bar.baz`. -/
def exampleDescriptor : MessageDescriptor :=
  ⟨lit "Example", lit "foo.bar.baz.Example"⟩

/-- The compiled form of the test schema `valid.proto`:
`package foo.bar.baz; message Example { string name = 1; }`. -/
def validProto : FileDescriptor := ⟨lit "foo.bar.baz", [exampleDescriptor]⟩

/-- A stand-in for the two libraries on the files of the tests: the compiler
opens the schema through the accessor and yields the compiled `valid.proto`,
the decoder accepts its input. -/
def testLibraries : Libraries :=
  ⟨[lit "."],
    fun _ accessor file =>
      match accessor file with
      | .error e => .error e
      | .ok _ => .ok [validProto],
    fun _ _ => none⟩

/-- The input of the test case "Valid fully qualified proto-message name". -/
def qualifiedInput : GoString :=
  lit "# proto-file: valid.proto\n# proto-message: foo.bar.baz.Example\n\nname: \"example\""

/-- The files of the test case "Valid fully qualified proto-message name"; the
text of the schema is read by the compiler only. -/
def qualifiedFiles : fileReader :=
  fakeFileReader [(lit "input.textproto", qualifiedInput),
    (lit "valid.proto", lit "syntax = \"proto3\";\npackage foo.bar.baz;\nmessage Example \x7b\nstring name = 1;\n\x7d")]

/-! ## Lemmas on the library functions -/

theorem keyFile_ne_keyMessage : keyFile ≠ keyMessage := by decide

theorem fieldsLoop_ne_nil (s : GoString) :
    ∀ (skip : Nat) (sp : Bool) (cur : GoString),
      ∀ f ∈ fieldsLoop skip sp cur s, f ≠ [] := by
  induction s with
  | nil =>
    intro skip sp cur f hf
    unfold fieldsLoop at hf
    by_cases hc : cur = []
    · simp [hc] at hf
    · simp [hc] at hf
      rw [hf]; exact hc
  | cons b rest ih =>
    intro skip sp cur f hf
    cases skip with
    | succ k =>
      unfold fieldsLoop at hf
      cases sp with
      | true => exact ih k true cur f (by simpa using hf)
      | false => exact ih k false (cur ++ [b]) f (by simpa using hf)
    | zero =>
      unfold fieldsLoop at hf
      by_cases hsp : isSpace (decodeRune (b :: rest)).1 = true
      · by_cases hc : cur = []
        · simp only [hsp, hc, if_true] at hf
          exact ih _ _ _ f hf
        · simp only [hsp, hc, if_true, if_false, List.mem_cons] at hf
          rcases hf with hf | hf
          · rw [hf]; exact hc
          · exact ih _ _ _ f hf
      · simp only [hsp] at hf
        exact ih _ _ _ f (by simpa using hf)

/-- Every field that `strings.Fields` returns is non-empty. -/
theorem Fields_ne_nil (s f : GoString) (hf : f ∈ Fields s) : f ≠ [] :=
  fieldsLoop_ne_nil s 0 false [] f hf

/-- The value of a directive is never the empty string. -/
theorem directiveValue_ne_nil {key l v : GoString}
    (h : directiveValue key l = some v) : v ≠ [] := by
  unfold directiveValue at h
  split at h
  · rename_i m k w hFields
    by_cases hk : k = key
    · simp [hk] at h
      subst h
      exact Fields_ne_nil (TrimSpace l) w (by rw [hFields]; simp)
    · simp [hk] at h
  · simp at h

/-- No line is a directive for both keys. -/
theorem directiveValue_message_of_file {l v : GoString}
    (h : directiveValue keyFile l = some v) : directiveValue keyMessage l = none := by
  unfold directiveValue at h ⊢
  split at h
  · rename_i m k w hFields
    by_cases hk : k = keyFile
    · simp [hk, keyFile_ne_keyMessage]
    · simp [hk] at h
  · simp at h

/-! ## The loop of `extractHeaders`, one line at a time -/

theorem headerLoop_stop {l : GoString} (rest : List GoString) (line : Nat)
    (protoFile protoMsg : GoString) (h : isHeaderLine l = false) :
    headerLoop (l :: rest) line protoFile protoMsg
      = finishHeaders protoFile protoMsg := by
  unfold isHeaderLine at h
  simp [headerLoop, h]

theorem headerLoop_file {l v : GoString} (rest : List GoString) (line : Nat)
    (protoFile protoMsg : GoString) (hl : isHeaderLine l = true)
    (h : directiveValue keyFile l = some v) :
    headerLoop (l :: rest) line protoFile protoMsg
      = if protoFile ≠ [] then ⟨[], [], some (errDupFile line)⟩
        else headerLoop rest (line + 1) v protoMsg := by
  unfold isHeaderLine at hl
  unfold directiveValue at h
  split at h
  · rename_i m k w hFields
    by_cases hk : k = keyFile
    · simp only [hk, if_true, Option.some.injEq] at h
      subst h
      subst hk
      simp [headerLoop, hl, hFields, keyFile, errDupFile]
    · simp [hk] at h
  · simp at h

theorem headerLoop_message {l v : GoString} (rest : List GoString) (line : Nat)
    (protoFile protoMsg : GoString) (hl : isHeaderLine l = true)
    (h : directiveValue keyMessage l = some v) :
    headerLoop (l :: rest) line protoFile protoMsg
      = if protoMsg ≠ [] then ⟨[], [], some (errDupMessage line)⟩
        else headerLoop rest (line + 1) protoFile v := by
  unfold isHeaderLine at hl
  unfold directiveValue at h
  split at h
  · rename_i m k w hFields
    by_cases hk : k = keyMessage
    · simp only [hk, if_true, Option.some.injEq] at h
      subst h
      subst hk
      have hne : ¬ keyMessage = lit "proto-file:" := fun e =>
        keyFile_ne_keyMessage e.symm
      simp [headerLoop, hl, hFields, hne, errDupMessage]
      simp [keyMessage]
    · simp [hk] at h
  · simp at h

theorem headerLoop_comment {l : GoString} (rest : List GoString) (line : Nat)
    (protoFile protoMsg : GoString) (hl : isHeaderLine l = true)
    (hf : directiveValue keyFile l = none)
    (hm : directiveValue keyMessage l = none) :
    headerLoop (l :: rest) line protoFile protoMsg
      = headerLoop rest (line + 1) protoFile protoMsg := by
  unfold isHeaderLine at hl
  unfold directiveValue at hf hm
  simp only [headerLoop, hl, Bool.not_true, Bool.false_eq_true, if_false]
  split
  · rename_i m k w hFields
    rw [hFields] at hf hm
    have h1 : ¬ k = lit "proto-file:" := by
      intro e; simp [keyFile, e] at hf
    have h2 : ¬ k = lit "proto-message:" := by
      intro e; simp [keyMessage, e] at hm
    simp [h1, h2]
  · rfl

/-! ## The loop of `extractHeaders` over a header block -/

theorem setCount_le_one (s : GoString) : setCount s ≤ 1 := by
  unfold setCount; split <;> omega

theorem setCount_of_ne_nil {s : GoString} (h : s ≠ []) : setCount s = 1 := by
  simp [setCount, h]

theorem directiveCount_cons (key l : GoString) (rest : List GoString) :
    directiveCount key (l :: rest)
      = directiveCount key rest + (if isDirective key l = true then 1 else 0) := by
  simp [directiveCount, List.countP_cons]

theorem isDirective_of_value {key l v : GoString} (h : directiveValue key l = some v) :
    isDirective key l = true := by
  simp [isDirective, h]

theorem isDirective_of_none {key l : GoString} (h : directiveValue key l = none) :
    isDirective key l = false := by
  simp [isDirective, h]

/-- A header line is a schema-path directive, a message-type directive or an
ordinary comment. -/
theorem line_cases (l : GoString) :
    (∃ v, directiveValue keyFile l = some v ∧ directiveValue keyMessage l = none) ∨
    (∃ v, directiveValue keyMessage l = some v ∧ directiveValue keyFile l = none) ∨
    (directiveValue keyFile l = none ∧ directiveValue keyMessage l = none) := by
  cases hf : directiveValue keyFile l with
  | some v => exact Or.inl ⟨v, rfl, directiveValue_message_of_file hf⟩
  | none =>
    cases hm : directiveValue keyMessage l with
    | some v => exact Or.inr (Or.inl ⟨v, rfl, rfl⟩)
    | none => exact Or.inr (Or.inr ⟨rfl, rfl⟩)

/-- The loop never looks past the header block. -/
theorem headerLoop_takeWhile (ls : List GoString) :
    ∀ (line : Nat) (protoFile protoMsg : GoString),
      headerLoop ls line protoFile protoMsg
        = headerLoop (ls.takeWhile isHeaderLine) line protoFile protoMsg := by
  induction ls with
  | nil => intro line pf pm; rfl
  | cons l rest ih =>
    intro line pf pm
    cases hl : isHeaderLine l with
    | false =>
      rw [headerLoop_stop rest line pf pm hl]
      simp [List.takeWhile_cons, hl, headerLoop]
    | true =>
      have htw : (l :: rest).takeWhile isHeaderLine
          = l :: rest.takeWhile isHeaderLine := by
        simp [List.takeWhile_cons, hl]
      rw [htw]
      rcases line_cases l with ⟨v, hf, hm⟩ | ⟨v, hm, hf⟩ | ⟨hf, hm⟩
      · rw [headerLoop_file rest line pf pm hl hf,
          headerLoop_file _ line pf pm hl hf, ih]
      · rw [headerLoop_message rest line pf pm hl hm,
          headerLoop_message _ line pf pm hl hm, ih]
      · rw [headerLoop_comment rest line pf pm hl hf hm,
          headerLoop_comment _ line pf pm hl hf hm, ih]

theorem firstValue_cons_some {key l v : GoString} (rest : List GoString)
    (h : directiveValue key l = some v) : firstValue key (l :: rest) = v := by
  simp [firstValue, List.findSome?_cons, h]

theorem firstValue_cons_none {key l : GoString} (rest : List GoString)
    (h : directiveValue key l = none) :
    firstValue key (l :: rest) = firstValue key rest := by
  simp [firstValue, List.findSome?_cons, h]

/-- Without a second directive for either key the loop runs to the end of the
header block and keeps the value of the first directive of each key. -/
theorem headerLoop_noDup (hb : List GoString)
    (hall : ∀ l ∈ hb, isHeaderLine l = true) :
    ∀ (line : Nat) (pf pm : GoString),
      setCount pf + directiveCount keyFile hb ≤ 1 →
      setCount pm + directiveCount keyMessage hb ≤ 1 →
      headerLoop hb line pf pm
        = finishHeaders (if pf = [] then firstValue keyFile hb else pf)
            (if pm = [] then firstValue keyMessage hb else pm) := by
  induction hb with
  | nil =>
    intro line pf pm _ _
    simp only [headerLoop, firstValue, List.findSome?_nil, Option.getD_none]
    congr 1
    · split <;> simp_all
    · split <;> simp_all
  | cons l rest ih =>
    intro line pf pm h1 h2
    have hl : isHeaderLine l = true := hall l (List.mem_cons_self _ _)
    have hrest : ∀ x ∈ rest, isHeaderLine x = true :=
      fun x hx => hall x (List.mem_cons_of_mem _ hx)
    rw [directiveCount_cons] at h1 h2
    rcases line_cases l with ⟨v, hf, hm⟩ | ⟨v, hm, hf⟩ | ⟨hf, hm⟩
    · have hv : v ≠ [] := directiveValue_ne_nil hf
      rw [isDirective_of_value hf] at h1
      rw [isDirective_of_none hm] at h2
      simp only [if_true] at h1
      have hpf : pf = [] := by
        by_contra hne
        rw [setCount_of_ne_nil hne] at h1
        omega
      subst hpf
      rw [headerLoop_file rest line [] pm hl hf]
      simp only [ne_eq, not_true_eq_false, if_false, if_true]
      rw [ih hrest (line + 1) v pm
        (by rw [setCount_of_ne_nil hv]; simp [setCount] at h1; omega)
        (by simpa using h2)]
      rw [firstValue_cons_some rest hf, firstValue_cons_none rest hm]
      simp [hv]
    · have hv : v ≠ [] := directiveValue_ne_nil hm
      rw [isDirective_of_value hm] at h2
      rw [isDirective_of_none hf] at h1
      simp only [if_true] at h2
      have hpm : pm = [] := by
        by_contra hne
        rw [setCount_of_ne_nil hne] at h2
        omega
      subst hpm
      rw [headerLoop_message rest line pf [] hl hm]
      simp only [ne_eq, not_true_eq_false, if_false, if_true]
      rw [ih hrest (line + 1) pf v
        (by simpa using h1)
        (by rw [setCount_of_ne_nil hv]; simp [setCount] at h2; omega)]
      rw [firstValue_cons_some rest hm, firstValue_cons_none rest hf]
      simp [hv]
    · rw [isDirective_of_none hf] at h1
      rw [isDirective_of_none hm] at h2
      rw [headerLoop_comment rest line pf pm hl hf hm]
      rw [ih hrest (line + 1) pf pm (by simpa using h1) (by simpa using h2)]
      rw [firstValue_cons_none rest hf, firstValue_cons_none rest hm]

theorem firstValue_of_count_zero (key : GoString) (ls : List GoString)
    (h : directiveCount key ls = 0) : firstValue key ls = [] := by
  induction ls with
  | nil => simp [firstValue]
  | cons l rest ih =>
    rw [directiveCount_cons] at h
    cases hd : directiveValue key l with
    | some v => rw [isDirective_of_value hd] at h; simp at h
    | none =>
      rw [isDirective_of_none hd] at h
      rw [firstValue_cons_none rest hd]
      exact ih (by simpa using h)

theorem firstValue_of_mem (key : GoString) (ls : List GoString)
    (h : directiveCount key ls ≤ 1) (l v : GoString) (hl : l ∈ ls)
    (hv : directiveValue key l = some v) : firstValue key ls = v := by
  induction ls with
  | nil => simp at hl
  | cons x rest ih =>
    rw [directiveCount_cons] at h
    cases hd : directiveValue key x with
    | some w =>
      rw [firstValue_cons_some rest hd]
      rcases List.mem_cons.mp hl with rfl | hmem
      · rw [hd] at hv; exact Option.some.inj hv
      · exfalso
        rw [isDirective_of_value hd] at h
        have hpos : 0 < directiveCount key rest := by
          unfold directiveCount
          exact List.countP_pos_iff.mpr ⟨l, hmem, isDirective_of_value hv⟩
        simp at h
        omega
    | none =>
      rw [firstValue_cons_none rest hd]
      rcases List.mem_cons.mp hl with rfl | hmem
      · rw [hd] at hv; simp at hv
      · rw [isDirective_of_none hd] at h
        exact ih (by simpa using h) hmem

theorem firstValue_ne_nil (key : GoString) (ls : List GoString)
    (h : 0 < directiveCount key ls) : firstValue key ls ≠ [] := by
  induction ls with
  | nil => simp [directiveCount] at h
  | cons l rest ih =>
    cases hd : directiveValue key l with
    | some v =>
      rw [firstValue_cons_some rest hd]
      exact directiveValue_ne_nil hd
    | none =>
      rw [firstValue_cons_none rest hd]
      rw [directiveCount_cons, isDirective_of_none hd] at h
      exact ih (by simpa using h)

/-- With a second directive for some key in the header block, the loop ends at
the earliest line that repeats a key, with the duplicate error of that key
and the number of that line. -/
theorem headerLoop_dup (hb : List GoString)
    (hall : ∀ l ∈ hb, isHeaderLine l = true) :
    ∀ (line : Nat) (pf pm : GoString),
      (2 ≤ setCount pf + directiveCount keyFile hb ∨
        2 ≤ setCount pm + directiveCount keyMessage hb) →
      ∃ pre l post, hb = pre ++ l :: post ∧
        setCount pf + directiveCount keyFile pre ≤ 1 ∧
        setCount pm + directiveCount keyMessage pre ≤ 1 ∧
        ((isDirective keyFile l = true ∧
            setCount pf + directiveCount keyFile pre = 1 ∧
            headerLoop hb line pf pm
              = ⟨[], [], some (errDupFile (line + pre.length))⟩) ∨
          (isDirective keyMessage l = true ∧
            setCount pm + directiveCount keyMessage pre = 1 ∧
            headerLoop hb line pf pm
              = ⟨[], [], some (errDupMessage (line + pre.length))⟩)) := by
  induction hb with
  | nil =>
    intro line pf pm h
    have h1 := setCount_le_one pf
    have h2 := setCount_le_one pm
    simp [directiveCount] at h
    omega
  | cons l rest ih =>
    intro line pf pm h
    have hl : isHeaderLine l = true := hall l (List.mem_cons_self _ _)
    have hrest : ∀ x ∈ rest, isHeaderLine x = true :=
      fun x hx => hall x (List.mem_cons_of_mem _ hx)
    have hpf1 := setCount_le_one pf
    have hpm1 := setCount_le_one pm
    rw [directiveCount_cons, directiveCount_cons] at h
    rcases line_cases l with ⟨v, hf, hm⟩ | ⟨v, hm, hf⟩ | ⟨hf, hm⟩
    · rw [isDirective_of_value hf, isDirective_of_none hm] at h
      simp only [if_true, Bool.false_eq_true, if_false, Nat.add_zero] at h
      by_cases hpf : pf = []
      · subst hpf
        have hv : v ≠ [] := directiveValue_ne_nil hf
        have hs : setCount v = 1 := setCount_of_ne_nil hv
        have h0 : setCount ([] : GoString) = 0 := by simp [setCount]
        obtain ⟨pre, x, post, heq, c1, c2, hres⟩ :=
          ih hrest (line + 1) v pm (by rw [hs]; rw [h0] at h; omega)
        refine ⟨l :: pre, x, post, by rw [heq]; rfl, ?_, ?_, ?_⟩
        · rw [directiveCount_cons, isDirective_of_value hf, h0]
          rw [hs] at c1; simp; omega
        · rw [directiveCount_cons, isDirective_of_none hm]
          simpa using c2
        · rw [headerLoop_file rest line [] pm hl hf]
          simp only [ne_eq, not_true_eq_false, if_false]
          have hlen : line + (l :: pre).length = line + 1 + pre.length := by
            simp; omega
          rw [hlen]
          rcases hres with ⟨d, c, r⟩ | ⟨d, c, r⟩
          · refine Or.inl ⟨d, ?_, r⟩
            rw [directiveCount_cons, isDirective_of_value hf, h0]
            rw [hs] at c; simp; omega
          · refine Or.inr ⟨d, ?_, r⟩
            rw [directiveCount_cons, isDirective_of_none hm]
            simpa using c
      · have hs : setCount pf = 1 := setCount_of_ne_nil hpf
        refine ⟨[], l, rest, rfl, ?_, ?_, Or.inl ⟨isDirective_of_value hf, ?_, ?_⟩⟩
        · simp [directiveCount, hs]
        · simpa [directiveCount] using hpm1
        · simp [directiveCount, hs]
        · rw [headerLoop_file rest line pf pm hl hf]
          simp [hpf]
    · rw [isDirective_of_value hm, isDirective_of_none hf] at h
      simp only [if_true, Bool.false_eq_true, if_false, Nat.add_zero] at h
      by_cases hpm : pm = []
      · subst hpm
        have hv : v ≠ [] := directiveValue_ne_nil hm
        have hs : setCount v = 1 := setCount_of_ne_nil hv
        have h0 : setCount ([] : GoString) = 0 := by simp [setCount]
        obtain ⟨pre, x, post, heq, c1, c2, hres⟩ :=
          ih hrest (line + 1) pf v (by rw [hs]; rw [h0] at h; omega)
        refine ⟨l :: pre, x, post, by rw [heq]; rfl, ?_, ?_, ?_⟩
        · rw [directiveCount_cons, isDirective_of_none hf]
          simpa using c1
        · rw [directiveCount_cons, isDirective_of_value hm, h0]
          rw [hs] at c2; simp; omega
        · rw [headerLoop_message rest line pf [] hl hm]
          simp only [ne_eq, not_true_eq_false, if_false]
          have hlen : line + (l :: pre).length = line + 1 + pre.length := by
            simp; omega
          rw [hlen]
          rcases hres with ⟨d, c, r⟩ | ⟨d, c, r⟩
          · refine Or.inl ⟨d, ?_, r⟩
            rw [directiveCount_cons, isDirective_of_none hf]
            simpa using c
          · refine Or.inr ⟨d, ?_, r⟩
            rw [directiveCount_cons, isDirective_of_value hm, h0]
            rw [hs] at c; simp; omega
      · have hs : setCount pm = 1 := setCount_of_ne_nil hpm
        refine ⟨[], l, rest, rfl, ?_, ?_, Or.inr ⟨isDirective_of_value hm, ?_, ?_⟩⟩
        · simpa [directiveCount] using hpf1
        · simp [directiveCount, hs]
        · simp [directiveCount, hs]
        · rw [headerLoop_message rest line pf pm hl hm]
          simp [hpm]
    · rw [isDirective_of_none hf, isDirective_of_none hm] at h
      simp only [Bool.false_eq_true, if_false, Nat.add_zero] at h
      obtain ⟨pre, x, post, heq, c1, c2, hres⟩ := ih hrest (line + 1) pf pm h
      refine ⟨l :: pre, x, post, by rw [heq]; rfl, ?_, ?_, ?_⟩
      · rw [directiveCount_cons, isDirective_of_none hf]
        simpa using c1
      · rw [directiveCount_cons, isDirective_of_none hm]
        simpa using c2
      · rw [headerLoop_comment rest line pf pm hl hf hm]
        have hlen : line + (l :: pre).length = line + 1 + pre.length := by
          simp; omega
        rw [hlen]
        rcases hres with ⟨d, c, r⟩ | ⟨d, c, r⟩
        · refine Or.inl ⟨d, ?_, r⟩
          rw [directiveCount_cons, isDirective_of_none hf]
          simpa using c
        · refine Or.inr ⟨d, ?_, r⟩
          rw [directiveCount_cons, isDirective_of_none hm]
          simpa using c

/-! ## Properties of `extractHeaders` -/

theorem finishHeaders_err_none (a b : GoString) :
    (finishHeaders a b).err = none ↔ a ≠ [] ∧ b ≠ [] := by
  unfold finishHeaders
  by_cases ha : a = []
  · simp [ha]
  · by_cases hb : b = []
    · simp [ha, hb]
    · simp [ha, hb]

theorem finishHeaders_of_ne_nil {a b : GoString} (ha : a ≠ []) (hb : b ≠ []) :
    finishHeaders a b = ⟨a, b, none⟩ := by
  simp [finishHeaders, ha, hb]

/-- Without a duplicate directive, the loop started on a header block ends with
the values of the first directive of each key. -/
theorem headerRun_noDup (hb : List GoString)
    (hall : ∀ l ∈ hb, isHeaderLine l = true)
    (hf : directiveCount keyFile (hb) ≤ 1)
    (hm : directiveCount keyMessage (hb) ≤ 1) :
    headerLoop hb 0 [] []
      = finishHeaders (firstValue keyFile (hb))
          (firstValue keyMessage (hb)) := by
  rw [headerLoop_noDup hb hall 0 [] []
      (by simpa [setCount] using hf) (by simpa [setCount] using hm)]
  simp

/-- With a duplicate directive, the loop started on a header block fails. -/
theorem headerRun_dup_err (hb : List GoString)
    (hall : ∀ l ∈ hb, isHeaderLine l = true)
    (h : 2 ≤ directiveCount keyFile (hb) ∨
      2 ≤ directiveCount keyMessage (hb)) :
    ∃ n, headerLoop hb 0 [] [] = ⟨[], [], some (errDupFile n)⟩ ∨
      headerLoop hb 0 [] [] = ⟨[], [], some (errDupMessage n)⟩ := by
  obtain ⟨pre, l, post, _, _, _, hres⟩ :=
    headerLoop_dup (hb) hall 0 [] []
      (by simpa [setCount] using h)
  rcases hres with ⟨_, _, r⟩ | ⟨_, _, r⟩
  · exact ⟨0 + pre.length, Or.inl r⟩
  · exact ⟨0 + pre.length, Or.inr r⟩

/-- A successful run of the loop means one directive line of each key. -/
theorem headerRun_ok_counts (hb : List GoString)
    (hall : ∀ l ∈ hb, isHeaderLine l = true)
    (hok : (headerLoop hb 0 [] []).err = none) :
    directiveCount keyFile (hb) = 1 ∧
      directiveCount keyMessage (hb) = 1 := by
  have hle : directiveCount keyFile (hb) ≤ 1 ∧
      directiveCount keyMessage (hb) ≤ 1 := by
    by_contra hcon
    have h2 : 2 ≤ directiveCount keyFile (hb) ∨
        2 ≤ directiveCount keyMessage (hb) := by omega
    obtain ⟨n, r | r⟩ := headerRun_dup_err hb hall h2
    · rw [r] at hok; simp at hok
    · rw [r] at hok; simp at hok
  rw [headerRun_noDup hb hall hle.1 hle.2, finishHeaders_err_none] at hok
  constructor
  · have : directiveCount keyFile (hb) ≠ 0 := fun h0 =>
      hok.1 (firstValue_of_count_zero _ _ h0)
    omega
  · have : directiveCount keyMessage (hb) ≠ 0 := fun h0 =>
      hok.2 (firstValue_of_count_zero _ _ h0)
    omega

/-- One directive line of each key gives a successful run of the loop, with the
values of those two lines. -/
theorem headerRun_of_counts (hb : List GoString)
    (hall : ∀ l ∈ hb, isHeaderLine l = true)
    (h1 : directiveCount keyFile (hb) = 1)
    (h2 : directiveCount keyMessage (hb) = 1) :
    headerLoop hb 0 [] [] = ⟨firstValue keyFile (hb),
      firstValue keyMessage (hb), none⟩ := by
  rw [headerRun_noDup hb hall (by omega) (by omega)]
  exact finishHeaders_of_ne_nil (firstValue_ne_nil _ _ (by omega))
    (firstValue_ne_nil _ _ (by omega))

/-- On success the two results are the values of the directive lines. -/
theorem headerRun_ok_values (hb : List GoString)
    (hall : ∀ l ∈ hb, isHeaderLine l = true)
    (hok : (headerLoop hb 0 [] []).err = none) (l v : GoString)
    (hl : l ∈ hb) :
    (directiveValue keyFile l = some v → (headerLoop hb 0 [] []).protoFile = v) ∧
    (directiveValue keyMessage l = some v → (headerLoop hb 0 [] []).protoMsg = v) := by
  obtain ⟨h1, h2⟩ := headerRun_ok_counts hb hall hok
  rw [headerRun_of_counts hb hall h1 h2]
  exact ⟨fun hv => firstValue_of_mem _ _ (by omega) l v hl hv,
    fun hv => firstValue_of_mem _ _ (by omega) l v hl hv⟩

/-- A header failure is what `validateTextproto` returns, unchanged. -/
theorem validateTextproto_header_err (lib : Libraries) (reader : fileReader)
    (txtpb input : GoString) (e : GoError)
    (hread : reader.ReadFile txtpb = .ok input)
    (hhdr : (extractHeaders input).err = some e) :
    validateTextproto lib reader txtpb = some e := by
  unfold validateTextproto
  rw [hread]
  simp only
  split
  · rename_i a b err heq
    rw [heq] at hhdr
    simpa using hhdr
  · rename_i a b heq
    rw [heq] at hhdr
    simp at hhdr

/-! ## Properties of `validateTextproto` and `findMessage` -/

theorem validateTextproto_read_err (lib : Libraries) (reader : fileReader)
    (txtpb : GoString) (e : GoError) (hread : reader.ReadFile txtpb = .error e) :
    validateTextproto lib reader txtpb = some e := by
  unfold validateTextproto
  rw [hread]

/-- After a successful read and a successful header extraction the result is
decided by the resolver and, if that succeeds, by the decoder. -/
theorem validateTextproto_of_headers (lib : Libraries) (reader : fileReader)
    (txtpb b : GoString) (hread : reader.ReadFile txtpb = .ok b)
    (hhdr : (extractHeaders b).err = none) :
    validateTextproto lib reader txtpb =
      match findMessage lib reader (extractHeaders b).protoFile
          (extractHeaders b).protoMsg with
      | .error err =>
        some (.new (resolveContext (extractHeaders b).protoMsg
          (extractHeaders b).protoFile ++ err.Error))
      | .ok m =>
        match lib.Unmarshal b m with
        | some err => some (.wrap (lit "unmarshal failure: " ++ err.Error) err)
        | none => none := by
  unfold validateTextproto
  rw [hread]
  simp only
  cases hx : extractHeaders b with
  | mk pf pm err =>
    rw [hx] at hhdr
    simp only at hhdr
    subst hhdr
    simp only [resolveContext, List.append_assoc]

theorem validateTextproto_resolve_err (lib : Libraries) (reader : fileReader)
    (txtpb b : GoString) (e : GoError) (hread : reader.ReadFile txtpb = .ok b)
    (hhdr : (extractHeaders b).err = none)
    (hres : findMessage lib reader (extractHeaders b).protoFile
      (extractHeaders b).protoMsg = .error e) :
    validateTextproto lib reader txtpb
      = some (.new (resolveContext (extractHeaders b).protoMsg
          (extractHeaders b).protoFile ++ e.Error)) := by
  rw [validateTextproto_of_headers lib reader txtpb b hread hhdr, hres]

theorem validateTextproto_decode (lib : Libraries) (reader : fileReader)
    (txtpb b : GoString) (m : Message) (hread : reader.ReadFile txtpb = .ok b)
    (hhdr : (extractHeaders b).err = none)
    (hres : findMessage lib reader (extractHeaders b).protoFile
      (extractHeaders b).protoMsg = .ok m) :
    validateTextproto lib reader txtpb
      = match lib.Unmarshal b m with
        | some err => some (.wrap (lit "unmarshal failure: " ++ err.Error) err)
        | none => none := by
  rw [validateTextproto_of_headers lib reader txtpb b hread hhdr, hres]

/-- C4. `validateTextproto`, over an abstract file reader, type resolver and text
decoder: a read failure is returned unchanged; a header-extraction failure is
returned unchanged; a resolution failure gives an error whose message is
exactly "failed to find message <type> in <schema>: <cause>"; a failure to
decode the raw bytes that were read gives an error whose message is exactly
"unmarshal failure: <cause>"; the result is `nil` if and only if all four
steps succeed; the result of a failing stage is the same whatever the later
stages do. -/
theorem validateTextproto_stages (lib : Libraries) (reader : fileReader)
    (txtpb : GoString) :
    (∀ e, reader.ReadFile txtpb = .error e →
      ∀ lib2 : Libraries, validateTextproto lib2 reader txtpb = some e) ∧
    (∀ b e, reader.ReadFile txtpb = .ok b → (extractHeaders b).err = some e →
      ∀ lib2 : Libraries, validateTextproto lib2 reader txtpb = some e) ∧
    (∀ b e, reader.ReadFile txtpb = .ok b → (extractHeaders b).err = none →
      findMessage lib reader (extractHeaders b).protoFile
        (extractHeaders b).protoMsg = .error e →
      ∀ decoder : GoString → Message → Option GoError,
        ∃ r, validateTextproto ⟨lib.importPath, lib.ParseFiles, decoder⟩ reader txtpb
            = some r ∧
          r.Error = lit "failed to find message " ++ (extractHeaders b).protoMsg
            ++ lit " in " ++ (extractHeaders b).protoFile ++ lit ": " ++ e.Error) ∧
    (∀ b m e, reader.ReadFile txtpb = .ok b → (extractHeaders b).err = none →
      findMessage lib reader (extractHeaders b).protoFile
        (extractHeaders b).protoMsg = .ok m →
      lib.Unmarshal b m = some e →
      ∃ r, validateTextproto lib reader txtpb = some r ∧
        r.Error = lit "unmarshal failure: " ++ e.Error) ∧
    (validateTextproto lib reader txtpb = none ↔
      ∃ b m, reader.ReadFile txtpb = .ok b ∧ (extractHeaders b).err = none ∧
        findMessage lib reader (extractHeaders b).protoFile
          (extractHeaders b).protoMsg = .ok m ∧
        lib.Unmarshal b m = none) := by
  refine ⟨?_, ?_, ?_, ?_, ?_⟩
  · intro e hread lib2
    exact validateTextproto_read_err lib2 reader txtpb e hread
  · intro b e hread hhdr lib2
    exact validateTextproto_header_err lib2 reader txtpb b e hread hhdr
  · intro b e hread hhdr hres decoder
    refine ⟨_, validateTextproto_resolve_err ⟨lib.importPath, lib.ParseFiles, decoder⟩
      reader txtpb b e hread hhdr hres, ?_⟩
    simp [GoError.Error, resolveContext]
  · intro b m e hread hhdr hres hdec
    rw [validateTextproto_decode lib reader txtpb b m hread hhdr hres, hdec]
    exact ⟨_, rfl, rfl⟩
  · constructor
    · intro hnone
      cases hread : reader.ReadFile txtpb with
      | error e =>
        rw [validateTextproto_read_err lib reader txtpb e hread] at hnone
        simp at hnone
      | ok b =>
        cases hhdr : (extractHeaders b).err with
        | some e =>
          rw [validateTextproto_header_err lib reader txtpb b e hread hhdr] at hnone
          simp at hnone
        | none =>
          cases hres : findMessage lib reader (extractHeaders b).protoFile
              (extractHeaders b).protoMsg with
          | error e =>
            rw [validateTextproto_resolve_err lib reader txtpb b e hread hhdr hres]
              at hnone
            simp at hnone
          | ok m =>
            rw [validateTextproto_decode lib reader txtpb b m hread hhdr hres]
              at hnone
            cases hdec : lib.Unmarshal b m with
            | some e => rw [hdec] at hnone; simp at hnone
            | none => exact ⟨b, m, rfl, hhdr, hres, hdec⟩
    · rintro ⟨b, m, hread, hhdr, hres, hdec⟩
      rw [validateTextproto_decode lib reader txtpb b m hread hhdr hres, hdec]

/-- The test case "Missing textproto" of the repository: the read fails and its
error is the result. -/
theorem validateTextproto_stages_witness :
    validateTextproto testLibraries (fakeFileReader []) (lit "input.textproto")
      = some (.new (lit "unknown file input.textproto")) :=
  (validateTextproto_stages testLibraries (fakeFileReader []) (lit "input.textproto")).1
    (.new (lit "unknown file input.textproto")) (by rfl) testLibraries

theorem resolveContext_ne_nil (protoMsg protoFile : GoString) :
    resolveContext protoMsg protoFile ≠ [] := by
  have h : lit "failed to find message " ≠ [] := by decide
  intro hc
  unfold resolveContext at hc
  simp only [List.append_assoc, List.append_eq_nil] at hc
  exact h hc.1

/-- C9, refuted as stated. In the test case "Missing textproto" the read fails
with "unknown file input.textproto" and `validateTextproto` returns that very
error: its message is the message of the cause with no context text in front
of it. -/
theorem validateTextproto_read_no_context :
    (fakeFileReader []).ReadFile (lit "input.textproto")
      = .error (.new (lit "unknown file input.textproto")) ∧
    validateTextproto testLibraries (fakeFileReader []) (lit "input.textproto")
      = some (.new (lit "unknown file input.textproto")) ∧
    ¬ ∃ ctx : GoString, ctx ≠ [] ∧
      (GoError.new (lit "unknown file input.textproto")).Error
        = ctx ++ (GoError.new (lit "unknown file input.textproto")).Error := by
  refine ⟨by rfl, by rfl, ?_⟩
  rintro ⟨ctx, hne, heq⟩
  have hlen := congrArg List.length heq
  rw [List.length_append] at hlen
  have : ctx.length = 0 := by omega
  exact hne (List.length_eq_zero.mp this)

/-- C9, amended. For every failing run of `validateTextproto`: a read failure and
a header-extraction failure are returned as they are, with no context added;
a resolution failure is returned as a new error whose message is the
non-empty context "failed to find message <type> in <schema>: " followed by
the message of the cause; a decode failure is returned as an error that wraps
the cause and whose message is the non-empty context "unmarshal failure: "
followed by the message of the cause. -/
theorem validateTextproto_context (lib : Libraries) (reader : fileReader)
    (txtpb : GoString) :
    (∀ e, reader.ReadFile txtpb = .error e →
      validateTextproto lib reader txtpb = some e) ∧
    (∀ b e, reader.ReadFile txtpb = .ok b → (extractHeaders b).err = some e →
      validateTextproto lib reader txtpb = some e) ∧
    (∀ b e, reader.ReadFile txtpb = .ok b → (extractHeaders b).err = none →
      findMessage lib reader (extractHeaders b).protoFile
        (extractHeaders b).protoMsg = .error e →
      ∃ ctx, ctx ≠ [] ∧
        ctx = resolveContext (extractHeaders b).protoMsg (extractHeaders b).protoFile ∧
        validateTextproto lib reader txtpb = some (.new (ctx ++ e.Error))) ∧
    (∀ b m e, reader.ReadFile txtpb = .ok b → (extractHeaders b).err = none →
      findMessage lib reader (extractHeaders b).protoFile
        (extractHeaders b).protoMsg = .ok m →
      lib.Unmarshal b m = some e →
      ∃ ctx, ctx ≠ [] ∧ ctx = lit "unmarshal failure: " ∧
        validateTextproto lib reader txtpb = some (.wrap (ctx ++ e.Error) e)) := by
  refine ⟨?_, ?_, ?_, ?_⟩
  · intro e hread
    exact validateTextproto_read_err lib reader txtpb e hread
  · intro b e hread hhdr
    exact validateTextproto_header_err lib reader txtpb b e hread hhdr
  · intro b e hread hhdr hres
    exact ⟨_, resolveContext_ne_nil _ _, rfl,
      validateTextproto_resolve_err lib reader txtpb b e hread hhdr hres⟩
  · intro b m e hread hhdr hres hdec
    refine ⟨_, by decide, rfl, ?_⟩
    rw [validateTextproto_decode lib reader txtpb b m hread hhdr hres, hdec]

/-- The test case "Missing proto-file field" of the repository: the header
failure is the result, as it is. -/
theorem validateTextproto_context_witness :
    validateTextproto testLibraries
        (fakeFileReader [(lit "input.textproto", lit "# proto-message: Example\n\n")])
        (lit "input.textproto")
      = some (.new (lit "could not find proto-file comment")) :=
  (validateTextproto_context testLibraries
    (fakeFileReader [(lit "input.textproto", lit "# proto-message: Example\n\n")])
    (lit "input.textproto")).2.1 (lit "# proto-message: Example\n\n")
    (.new (lit "could not find proto-file comment")) (by rfl) (by decide)

theorem ByName_eq_none {fd : FileDescriptor} {s : GoString}
    (h : ∀ m ∈ fd.messages, m.name ≠ s) : fd.ByName s = none := by
  unfold FileDescriptor.ByName
  rw [List.find?_eq_none]
  intro m hm
  simpa using h m hm

theorem ByName_first {fd : FileDescriptor} {s : GoString}
    (ms1 ms2 : List MessageDescriptor) (md : MessageDescriptor)
    (hsplit : fd.messages = ms1 ++ md :: ms2)
    (hbefore : ∀ m ∈ ms1, m.name ≠ s) (hname : md.name = s) :
    fd.ByName s = some md := by
  unfold FileDescriptor.ByName
  rw [hsplit]
  clear hsplit
  induction ms1 with
  | nil => simp [List.find?_cons, hname]
  | cons x rest ih =>
    have hx : x.name ≠ s := hbefore x (List.mem_cons_self _ _)
    simp only [List.cons_append, List.find?_cons, hx, decide_False]
    exact ih (fun m hm => hbefore m (List.mem_cons_of_mem _ hm))

theorem findInFiles_skip (pre rest : List FileDescriptor) (s : GoString)
    (h : ∀ f ∈ pre, ∀ m ∈ f.messages, m.name ≠ s) :
    findInFiles (pre ++ rest) s = findInFiles rest s := by
  induction pre with
  | nil => rfl
  | cons f tl ih =>
    have hf : f.ByName s = none := ByName_eq_none (h f (List.mem_cons_self _ _))
    simp only [List.cons_append, findInFiles, hf]
    exact ih (fun g hg => h g (List.mem_cons_of_mem _ hg))

/-- C10. `findMessage`, over an abstract compiler result: a compilation failure is
returned unchanged; when the compiler yields a list of files, the result is a
new empty message of the matching top-level message type of the first file,
in list order, that declares a top-level message whose name equals the
requested name; when no compiled file declares such a message, it fails with
exactly "message not found", and `validateTextproto` then reports
"failed to find message <name> in <schemaPath>: message not found". -/
theorem findMessage_spec (lib : Libraries) (reader : fileReader)
    (protoFile protoMsg : GoString) :
    (∀ e, lib.ParseFiles lib.importPath reader.Open protoFile = .error e →
      findMessage lib reader protoFile protoMsg = .error e) ∧
    (∀ pre fd post ms1 md ms2,
      lib.ParseFiles lib.importPath reader.Open protoFile = .ok (pre ++ fd :: post) →
      (∀ f ∈ pre, ∀ m ∈ f.messages, m.name ≠ protoMsg) →
      fd.messages = ms1 ++ md :: ms2 →
      (∀ m ∈ ms1, m.name ≠ protoMsg) → md.name = protoMsg →
      findMessage lib reader protoFile protoMsg = .ok ⟨md, []⟩) ∧
    (∀ fds, lib.ParseFiles lib.importPath reader.Open protoFile = .ok fds →
      (∀ f ∈ fds, ∀ m ∈ f.messages, m.name ≠ protoMsg) →
      findMessage lib reader protoFile protoMsg
          = .error (.new (lit "message not found")) ∧
        ∀ txtpb b, reader.ReadFile txtpb = .ok b →
          extractHeaders b = ⟨protoFile, protoMsg, none⟩ →
          validateTextproto lib reader txtpb
            = some (.new (lit "failed to find message " ++ protoMsg ++ lit " in "
                ++ protoFile ++ lit ": " ++ lit "message not found"))) := by
  refine ⟨?_, ?_, ?_⟩
  · intro e hparse
    unfold findMessage
    rw [hparse]
  · intro pre fd post ms1 md ms2 hparse hpre hsplit hbefore hname
    unfold findMessage
    rw [hparse]
    simp only
    rw [findInFiles_skip pre (fd :: post) protoMsg hpre]
    simp only [findInFiles, ByName_first ms1 ms2 md hsplit hbefore hname, NewMessage]
  · intro fds hparse hnone
    have hfind : findMessage lib reader protoFile protoMsg
        = .error (.new (lit "message not found")) := by
      unfold findMessage
      rw [hparse]
      simp only
      have := findInFiles_skip fds [] protoMsg hnone
      rw [List.append_nil] at this
      rw [this]
      rfl
    refine ⟨hfind, ?_⟩
    intro txtpb b hread hhdr
    have herr : (extractHeaders b).err = none := by rw [hhdr]
    have hres : findMessage lib reader (extractHeaders b).protoFile
        (extractHeaders b).protoMsg = .error (.new (lit "message not found")) := by
      rw [hhdr]; exact hfind
    rw [validateTextproto_resolve_err lib reader txtpb b _ hread herr hres, hhdr]
    simp [resolveContext, GoError.Error]

/-- The test case "proto-message not in proto-file" of the repository: the
schema declares `Example` only and the requested name is `Missing`. -/
theorem findMessage_spec_witness :
    findMessage testLibraries qualifiedFiles (lit "valid.proto") (lit "Missing")
      = .error (.new (lit "message not found")) :=
  ((findMessage_spec testLibraries qualifiedFiles (lit "valid.proto") (lit "Missing")).2.2
    [validProto] (by rfl) (by decide)).1

/-- C8, evaluated on the code. For the schema of the tests (package
`foo.bar.baz`, message `Example`), `findMessage` finds the message under its
simple name `Example`, but under the fully qualified name
`foo.bar.baz.Example` it fails with "message not found", because the compiled
file is asked for a top-level message by short name; `validateTextproto`
then fails on the input of the test case "Valid fully qualified proto-message
name", which the test expects to succeed. -/
theorem findMessage_qualified_name (lib : Libraries) (reader : fileReader)
    (hparse : lib.ParseFiles lib.importPath reader.Open (lit "valid.proto")
      = .ok [validProto])
    (hread : reader.ReadFile (lit "input.textproto") = .ok qualifiedInput) :
    findMessage lib reader (lit "valid.proto") (lit "Example")
      = .ok (NewMessage exampleDescriptor) ∧
    findMessage lib reader (lit "valid.proto") (lit "foo.bar.baz.Example")
      = .error (.new (lit "message not found")) ∧
    validateTextproto lib reader (lit "input.textproto")
      = some (.new (lit
          "failed to find message foo.bar.baz.Example in valid.proto: message not found")) := by
  have hhdr : extractHeaders qualifiedInput
      = ⟨lit "valid.proto", lit "foo.bar.baz.Example", none⟩ := by decide
  have h1 : findMessage lib reader (lit "valid.proto") (lit "Example")
      = .ok (NewMessage exampleDescriptor) := by
    unfold findMessage
    rw [hparse]
    rfl
  have h2 : findMessage lib reader (lit "valid.proto") (lit "foo.bar.baz.Example")
      = .error (.new (lit "message not found")) := by
    unfold findMessage
    rw [hparse]
    rfl
  refine ⟨h1, h2, ?_⟩
  have herr : (extractHeaders qualifiedInput).err = none := by rw [hhdr]
  have hres : findMessage lib reader (extractHeaders qualifiedInput).protoFile
      (extractHeaders qualifiedInput).protoMsg
        = .error (.new (lit "message not found")) := by
    rw [hhdr]; exact h2
  rw [validateTextproto_resolve_err lib reader (lit "input.textproto") qualifiedInput _
    hread herr hres, hhdr]
  simp only [GoError.Error]
  decide

/-- The test case "Valid fully qualified proto-message name" of the repository,
on the stand-in libraries: `validateTextproto` fails. -/
theorem findMessage_qualified_name_witness :
    validateTextproto testLibraries qualifiedFiles (lit "input.textproto")
      = some (.new (lit
          "failed to find message foo.bar.baz.Example in valid.proto: message not found")) :=
  (findMessage_qualified_name testLibraries qualifiedFiles (by rfl) (by rfl)).2.2

/-! ## The end of the header block -/

theorem lit_hash : lit "#" = [0x23] := by decide

/-- A line is outside the header block exactly when its trimmed text is empty or
does not start with the comment marker. -/
theorem isHeaderLine_eq_false_iff (l : GoString) :
    isHeaderLine l = false ↔
      TrimSpace l = [] ∨ (TrimSpace l).head? ≠ some 0x23 := by
  unfold isHeaderLine HasPrefix
  rw [lit_hash]
  cases TrimSpace l with
  | nil => simp
  | cons b rest =>
    by_cases hb : b = 0x23
    · subst hb; simp
    · have hb2 : ¬ (0x23 : UInt8) = b := fun e => hb e.symm
      simp [List.isPrefixOf, hb, hb2]

/-- A line that has reached the size of the buffer ends the scan: no further
token is delivered, whatever follows. -/
theorem scanLinesFrom_too_long (s : GoString) :
    ∀ cur : GoString, maxScanTokenSize ≤ cur.length → scanLinesFrom cur s = [] := by
  induction s with
  | nil =>
    intro cur h
    have hne : cur ≠ [] := by
      intro hc
      rw [hc] at h
      simp [maxScanTokenSize] at h
    simp [scanLinesFrom, hne, h]
  | cons b rest ih =>
    intro cur h
    by_cases hb : b = 0x0A
    · simp [scanLinesFrom, hb, h]
    · simp only [scanLinesFrom, hb, if_false]
      exact ih (cur ++ [b]) (by rw [List.length_append]; omega)

/-- Scanning a text that ends at a line boundary, followed by more text: the
lines of the first text come first, and then either the lines of the rest or,
if the scanner gave up on a line of the first text, nothing. -/
theorem scanLinesFrom_append (p rest : GoString) :
    ∀ cur : GoString, (p = [] ∧ cur = [] ∨ p.getLast? = some 0x0A) →
      ∃ tail, scanLinesFrom cur (p ++ rest) = scanLinesFrom cur p ++ tail ∧
        (tail = [] ∨ tail = scanLinesFrom [] rest) := by
  induction p with
  | nil =>
    intro cur h
    rcases h with ⟨_, hc⟩ | h
    · subst hc
      exact ⟨scanLinesFrom [] rest, by simp [scanLinesFrom], Or.inr rfl⟩
    · simp at h
  | cons b p2 ih =>
    intro cur h
    have hlast : (b :: p2).getLast? = some 0x0A := by
      rcases h with ⟨h, _⟩ | h
      · simp at h
      · exact h
    by_cases hb : b = 0x0A
    · subst hb
      by_cases hlong : maxScanTokenSize ≤ cur.length
      · exact ⟨[], by simp [scanLinesFrom, hlong], Or.inl rfl⟩
      · have hp2 : p2 = [] ∧ ([] : GoString) = [] ∨ p2.getLast? = some 0x0A := by
          cases p2 with
          | nil => exact Or.inl ⟨rfl, rfl⟩
          | cons c p3 =>
            right
            rw [List.getLast?_cons_cons] at hlast
            exact hlast
        obtain ⟨tail, ht, hcase⟩ := ih [] hp2
        refine ⟨tail, ?_, hcase⟩
        rw [List.cons_append]
        simp only [scanLinesFrom, if_true, hlong, if_false, ht, List.cons_append]
    · have hp2 : p2.getLast? = some 0x0A := by
        cases p2 with
        | nil =>
          simp at hlast
          exact absurd hlast hb
        | cons c p3 =>
          rw [List.getLast?_cons_cons] at hlast
          exact hlast
      obtain ⟨tail, ht, hcase⟩ := ih (cur ++ [b]) (Or.inr hp2)
      refine ⟨tail, ?_, hcase⟩
      rw [List.cons_append]
      simp only [scanLinesFrom, hb, if_false, ht]

/-- Lines after a line that is outside the header block, and that line itself,
do not change the result of the loop. -/
theorem headerLoop_append_stop (ls tail : List GoString)
    (htail : ∀ l, tail.head? = some l → isHeaderLine l = false) :
    ∀ (line : Nat) (pf pm : GoString),
      headerLoop (ls ++ tail) line pf pm = headerLoop ls line pf pm := by
  induction ls with
  | nil =>
    intro line pf pm
    cases tail with
    | nil => rfl
    | cons t ts =>
      rw [List.nil_append, headerLoop_stop ts line pf pm (htail t rfl)]
      rfl
  | cons l rest ih =>
    intro line pf pm
    rw [List.cons_append]
    cases hl : isHeaderLine l with
    | false =>
      rw [headerLoop_stop _ line pf pm hl, headerLoop_stop _ line pf pm hl]
    | true =>
      rcases line_cases l with ⟨v, hf, hm⟩ | ⟨v, hm, hf⟩ | ⟨hf, hm⟩
      · rw [headerLoop_file _ line pf pm hl hf,
          headerLoop_file rest line pf pm hl hf, ih]
      · rw [headerLoop_message _ line pf pm hl hm,
          headerLoop_message rest line pf pm hl hm, ih]
      · rw [headerLoop_comment _ line pf pm hl hf hm,
          headerLoop_comment rest line pf pm hl hf hm, ih]

/-- C5. `extractHeaders` stops scanning at the first line whose trimmed text is
empty or does not start with the comment marker: the loop ends there as it
does at the end of the input, and for every input the result equals the
result on the input truncated just before such a line, whatever that line
and the following lines contain; in particular, for every input whose first
line is blank, `extractHeaders` fails with "could not find proto-file
comment", whatever follows. -/
theorem extractHeaders_stops :
    (∀ (l : GoString) (rest : List GoString) (line : Nat) (pf pm : GoString),
      (TrimSpace l = [] ∨ (TrimSpace l).head? ≠ some 0x23) →
      headerLoop (l :: rest) line pf pm = headerLoop [] line pf pm) ∧
    (∀ p rest : GoString, (p = [] ∨ p.getLast? = some 0x0A) →
      (∀ l, (scanLines rest).head? = some l →
        TrimSpace l = [] ∨ (TrimSpace l).head? ≠ some 0x23) →
      extractHeaders (p ++ rest) = extractHeaders p) ∧
    (∀ input l : GoString, (scanLines input).head? = some l → TrimSpace l = [] →
      extractHeaders input
        = ⟨[], [], some (.new (lit "could not find proto-file comment"))⟩) := by
  refine ⟨?_, ?_, ?_⟩
  · intro l rest line pf pm hl
    rw [headerLoop_stop rest line pf pm ((isHeaderLine_eq_false_iff l).mpr hl)]
    rfl
  · intro p rest hp hstop
    have hp2 : p = [] ∧ ([] : GoString) = [] ∨ p.getLast? = some 0x0A := by
      rcases hp with hp | hp
      · exact Or.inl ⟨hp, rfl⟩
      · exact Or.inr hp
    obtain ⟨tail, ht, hcase⟩ := scanLinesFrom_append p rest [] hp2
    unfold extractHeaders scanLines
    rw [ht]
    apply headerLoop_append_stop
    intro l hl
    rcases hcase with hcase | hcase
    · rw [hcase] at hl; simp at hl
    · rw [hcase] at hl
      exact (isHeaderLine_eq_false_iff l).mpr (hstop l hl)
  · intro input l hhead hblank
    unfold extractHeaders
    cases hs : scanLines input with
    | nil => rw [hs] at hhead; simp at hhead
    | cons x rest =>
      rw [hs] at hhead
      simp only [List.head?_cons, Option.some.injEq] at hhead
      subst hhead
      rw [headerLoop_stop rest 0 [] [] ((isHeaderLine_eq_false_iff x).mpr (Or.inl hblank))]
      rfl

/-- The test case "Missing proto-file due to newline comment break" of the
repository: the first line is blank and two well-formed directive lines
follow. -/
theorem extractHeaders_stops_witness :
    extractHeaders (lit "\n\n# proto-file: valid.proto\n# proto-message: Example\n\n")
      = ⟨[], [], some (.new (lit "could not find proto-file comment"))⟩ :=
  extractHeaders_stops.2.2
    (lit "\n\n# proto-file: valid.proto\n# proto-message: Example\n\n") []
    (by decide) (by decide)

/-! ## Lines that are not directives, and the marker field -/

theorem directiveValue_of_length_ne (key l : GoString)
    (h : (Fields (TrimSpace l)).length ≠ 3) : directiveValue key l = none := by
  unfold directiveValue
  split
  · rename_i m k v hFields
    rw [hFields] at h
    simp at h
  · rfl

/-- Two inputs that differ in one line of the header block, an ordinary comment
in both, give the same result. -/
theorem headerLoop_swap_comment (l c : GoString) (post : List GoString)
    (hl : isHeaderLine l = true) (hc : isHeaderLine c = true)
    (hlf : directiveValue keyFile l = none) (hlm : directiveValue keyMessage l = none)
    (hcf : directiveValue keyFile c = none) (hcm : directiveValue keyMessage c = none)
    (pre : List GoString) :
    ∀ (line : Nat) (pf pm : GoString),
      headerLoop (pre ++ l :: post) line pf pm
        = headerLoop (pre ++ c :: post) line pf pm := by
  induction pre with
  | nil =>
    intro line pf pm
    rw [List.nil_append, List.nil_append, headerLoop_comment post line pf pm hl hlf hlm,
      headerLoop_comment post line pf pm hc hcf hcm]
  | cons x rest ih =>
    intro line pf pm
    rw [List.cons_append, List.cons_append]
    cases hx : isHeaderLine x with
    | false =>
      rw [headerLoop_stop _ line pf pm hx, headerLoop_stop _ line pf pm hx]
    | true =>
      rcases line_cases x with ⟨v, hf, hm⟩ | ⟨v, hm, hf⟩ | ⟨hf, hm⟩
      · rw [headerLoop_file _ line pf pm hx hf, headerLoop_file _ line pf pm hx hf, ih]
      · rw [headerLoop_message _ line pf pm hx hm,
          headerLoop_message _ line pf pm hx hm, ih]
      · rw [headerLoop_comment _ line pf pm hx hf hm,
          headerLoop_comment _ line pf pm hx hf hm, ih]

theorem errDupFile_ne (n : Nat) :
    errDupFile n ≠ errNoFile ∧ errDupFile n ≠ errNoMessage := by
  have hd : (lit "duplicate proto-file at line ").head? = some 100 := by decide
  have hne : lit "duplicate proto-file at line " ≠ [] := by decide
  have h1 : (lit "could not find proto-file comment").head? = some 99 := by decide
  have h2 : (lit "could not find proto-message comment").head? = some 99 := by decide
  constructor
  · intro h
    unfold errDupFile errNoFile at h
    injection h with h
    have := congrArg List.head? h
    rw [List.head?_append_of_ne_nil _ hne, hd, h1] at this
    revert this; decide
  · intro h
    unfold errDupFile errNoMessage at h
    injection h with h
    have := congrArg List.head? h
    rw [List.head?_append_of_ne_nil _ hne, hd, h2] at this
    revert this; decide

theorem errDupMessage_ne (n : Nat) :
    errDupMessage n ≠ errNoFile ∧ errDupMessage n ≠ errNoMessage := by
  have hd : (lit "duplicate proto-message at line ").head? = some 100 := by decide
  have hne : lit "duplicate proto-message at line " ≠ [] := by decide
  have h1 : (lit "could not find proto-file comment").head? = some 99 := by decide
  have h2 : (lit "could not find proto-message comment").head? = some 99 := by decide
  constructor
  · intro h
    unfold errDupMessage errNoFile at h
    injection h with h
    have := congrArg List.head? h
    rw [List.head?_append_of_ne_nil _ hne, hd, h1] at this
    revert this; decide
  · intro h
    unfold errDupMessage errNoMessage at h
    injection h with h
    have := congrArg List.head? h
    rw [List.head?_append_of_ne_nil _ hne, hd, h2] at this
    revert this; decide

theorem errNoFile_ne_errNoMessage : errNoFile ≠ errNoMessage := by decide

/-- A header block with a directive line for a key never ends in the
missing-comment error of that key. -/
theorem headerRun_not_missing (hb : List GoString)
    (hall : ∀ l ∈ hb, isHeaderLine l = true) :
    (0 < directiveCount keyFile (hb) →
      (headerLoop hb 0 [] []).err ≠ some errNoFile) ∧
    (0 < directiveCount keyMessage (hb) →
      (headerLoop hb 0 [] []).err ≠ some errNoMessage) := by
  by_cases hdup : 2 ≤ directiveCount keyFile (hb) ∨
      2 ≤ directiveCount keyMessage (hb)
  · obtain ⟨n, r | r⟩ := headerRun_dup_err hb hall hdup
    · rw [r]
      exact ⟨fun _ h => (errDupFile_ne n).1 (Option.some.inj h),
        fun _ h => (errDupFile_ne n).2 (Option.some.inj h)⟩
    · rw [r]
      exact ⟨fun _ h => (errDupMessage_ne n).1 (Option.some.inj h),
        fun _ h => (errDupMessage_ne n).2 (Option.some.inj h)⟩
  · rw [headerRun_noDup hb hall (by omega) (by omega)]
    constructor
    · intro hpos
      have hne := firstValue_ne_nil keyFile (hb) hpos
      unfold finishHeaders
      simp only [hne, if_false]
      split
      · intro h
        exact errNoFile_ne_errNoMessage (Option.some.inj h).symm
      · simp
    · intro hpos
      have hne := firstValue_ne_nil keyMessage (hb) hpos
      unfold finishHeaders
      split
      · intro h
        exact errNoFile_ne_errNoMessage (Option.some.inj h)
      · simp [hne]

theorem directiveCount_pos_of_mem {key l v : GoString} {ls : List GoString}
    (hl : l ∈ ls) (hv : directiveValue key l = some v) :
    0 < directiveCount key ls := by
  unfold directiveCount
  exact List.countP_pos_iff.mpr ⟨l, hl, isDirective_of_value hv⟩

theorem fieldsLoop_head (s : GoString) :
    ∀ (skip : Nat) (sp : Bool) (cur : GoString), cur ≠ [] →
      ∃ f fs, fieldsLoop skip sp cur s = f :: fs ∧ f.head? = cur.head? := by
  induction s with
  | nil =>
    intro skip sp cur hc
    exact ⟨cur, [], by simp [fieldsLoop, hc], rfl⟩
  | cons b rest ih =>
    intro skip sp cur hc
    have hcb : cur ++ [b] ≠ [] := by simp
    have hhead : (cur ++ [b]).head? = cur.head? := List.head?_append_of_ne_nil _ hc
    cases skip with
    | succ k =>
      cases sp with
      | true =>
        obtain ⟨f, fs, h1, h2⟩ := ih k true cur hc
        exact ⟨f, fs, by simp [fieldsLoop, h1], h2⟩
      | false =>
        obtain ⟨f, fs, h1, h2⟩ := ih k false (cur ++ [b]) hcb
        exact ⟨f, fs, by simp [fieldsLoop, h1], by rw [h2, hhead]⟩
    | zero =>
      by_cases hsp : isSpace (decodeRune (b :: rest)).1 = true
      · exact ⟨cur, fieldsLoop ((decodeRune (b :: rest)).2 - 1) true [] rest,
          by simp only [fieldsLoop, hsp, hc, if_true, if_false], rfl⟩
      · obtain ⟨f, fs, h1, h2⟩ := ih ((decodeRune (b :: rest)).2 - 1) false (cur ++ [b]) hcb
        exact ⟨f, fs, by simp only [fieldsLoop, hsp, h1]; rfl, by rw [h2, hhead]⟩

/-- The first field of a header line starts with the comment marker. -/
theorem Fields_head_of_isHeaderLine (l : GoString) (hl : isHeaderLine l = true) :
    ∃ f fs, Fields (TrimSpace l) = f :: fs ∧ f.head? = some 0x23 := by
  unfold isHeaderLine HasPrefix at hl
  rw [lit_hash] at hl
  cases ht : TrimSpace l with
  | nil => rw [ht] at hl; simp at hl
  | cons b rest =>
    rw [ht] at hl
    have hb : b = 0x23 := by
      simp [List.isPrefixOf] at hl
      exact hl.symm
    subst hb
    have hd : decodeRune ((0x23 : UInt8) :: rest) = (0x23, 1) := by
      unfold decodeRune
      have h1 : (0x23 : UInt8).toNat < 0x80 := by decide
      simp only [h1, if_true]
      rfl
    obtain ⟨f, fs, h1, h2⟩ := fieldsLoop_head rest 0 false [0x23] (by simp)
    refine ⟨f, fs, ?_, h2⟩
    unfold Fields
    have hns : isSpace 0x23 = false := by decide
    simp only [fieldsLoop, hd, hns]
    simpa using h1

/-- C6, refuted as stated. The only line of the first input carries the key
`proto-message:`, a value and an extra token, and no other line sets
`proto-message:`; the call fails with the missing-comment error of
`proto-file:`, not with that of `proto-message:`.  In the second input the
line with the extra token carries `proto-file:` and no other line sets it; the
call fails with a duplicate error, not with a missing-comment error. -/
theorem extractHeaders_extra_token_counterexample :
    (Fields (TrimSpace (lit "# proto-message: Example junk"))
        = [lit "#", lit "proto-message:", lit "Example", lit "junk"] ∧
      headerBlock (lit "# proto-message: Example junk\n")
        = [lit "# proto-message: Example junk"] ∧
      extractHeaders (lit "# proto-message: Example junk\n")
        = ⟨[], [], some (.new (lit "could not find proto-file comment"))⟩ ∧
      GoError.new (lit "could not find proto-file comment")
        ≠ .new (lit "could not find proto-message comment")) ∧
    (headerBlock (lit "# proto-file: valid.proto junk\n# proto-message: A\n# proto-message: B\n")
        = [lit "# proto-file: valid.proto junk", lit "# proto-message: A",
            lit "# proto-message: B"] ∧
      extractHeaders (lit "# proto-file: valid.proto junk\n# proto-message: A\n# proto-message: B\n")
        = ⟨[], [], some (.new (lit "duplicate proto-message at line 2"))⟩) := by
  refine ⟨⟨?_, ?_, ?_, ?_⟩, ?_, ?_⟩ <;> decide

/-- C7, refuted as stated. The first line splits into the three fields `#x`,
`proto-file:` and `valid.proto`; it is the only three-field line with key
`proto-file:` and its first field is not `#`, yet `extractHeaders` records
`valid.proto` as the schema path and succeeds. -/
theorem extractHeaders_marker_counterexample :
    Fields (TrimSpace (lit "#x proto-file: valid.proto"))
      = [lit "#x", lit "proto-file:", lit "valid.proto"] ∧
    lit "#x" ≠ lit "#" ∧
    headerBlock (lit "#x proto-file: valid.proto\n# proto-message: Example\n")
      = [lit "#x proto-file: valid.proto", lit "# proto-message: Example"] ∧
    extractHeaders (lit "#x proto-file: valid.proto\n# proto-message: Example\n")
      = ⟨lit "valid.proto", lit "Example", none⟩ := by
  refine ⟨?_, ?_, ?_, ?_⟩ <;> decide


/-! ## A carriage return at the end of a line -/

theorem decodeRune_append_cr (b : UInt8) (rest : GoString) :
    decodeRune (b :: rest ++ [0x0D]) = decodeRune (b :: rest) := by
  have h13 : (0x0D : UInt8).toNat = 13 := by decide
  rw [List.cons_append]
  unfold decodeRune
  by_cases h1 : b.toNat < 0x80
  · simp only [h1, if_true]
  · by_cases h2 : b.toNat < 0xC2 ∨ 0xF4 < b.toNat
    · simp only [h1, h2, if_true, if_false]
    · simp only [h1, h2, if_false]
      have hlo : 0x80 ≤ (if b.toNat = 0xE0 then 0xA0
          else if b.toNat = 0xF0 then 0x90 else 0x80) := by
        split_ifs <;> omega
      generalize (if b.toNat = 0xE0 then 0xA0
          else if b.toNat = 0xF0 then 0x90 else 0x80) = lo at hlo ⊢
      generalize (if b.toNat = 0xED then 0x9F
          else if b.toNat = 0xF4 then 0x8F else 0xBF) = hi
      have hc : (0x0D : UInt8).toNat < 128 ∨ 191 < (0x0D : UInt8).toNat :=
        Or.inl (by decide)
      rcases rest with _ | ⟨b1, rest1⟩
      · have hor : (0x0D : UInt8).toNat < lo ∨ hi < (0x0D : UInt8).toNat :=
          Or.inl (by omega)
        simp only [List.nil_append, hor, if_true]
      · simp only [List.cons_append]
        by_cases hb1 : b1.toNat < lo ∨ hi < b1.toNat
        · simp only [hb1, if_true]
        · simp only [hb1, if_false]
          by_cases h3 : b.toNat < 224
          · simp only [h3, if_true]
          · simp only [h3, if_false]
            rcases rest1 with _ | ⟨b2, rest2⟩
            · simp only [List.nil_append, hc, if_true]
            · simp only [List.cons_append]
              by_cases hb2 : b2.toNat < 128 ∨ 191 < b2.toNat
              · simp only [hb2, if_true]
              · simp only [hb2, if_false]
                by_cases h4 : b.toNat < 240
                · simp only [h4, if_true]
                · simp only [h4, if_false]
                  rcases rest2 with _ | ⟨b3, rest3⟩
                  · simp only [List.nil_append, hc, if_true]
                  · simp only [List.cons_append]

theorem decodeRune_size_le (p : GoString) : (decodeRune p).2 ≤ p.length := by
  rcases p with _ | ⟨b, rest⟩
  · simp [decodeRune]
  · unfold decodeRune
    by_cases h1 : b.toNat < 0x80
    · simp only [h1, if_true, List.length_cons]; omega
    · by_cases h2 : b.toNat < 0xC2 ∨ 0xF4 < b.toNat
      · simp only [h1, h2, if_true, if_false, List.length_cons]; omega
      · simp only [h1, h2, if_false]
        generalize (if b.toNat = 0xE0 then 0xA0
            else if b.toNat = 0xF0 then 0x90 else 0x80) = lo
        generalize (if b.toNat = 0xED then 0x9F
            else if b.toNat = 0xF4 then 0x8F else 0xBF) = hi
        rcases rest with _ | ⟨b1, rest1⟩
        · simp
        · by_cases hb1 : b1.toNat < lo ∨ hi < b1.toNat
          · simp only [hb1, if_true, List.length_cons]; omega
          · simp only [hb1, if_false]
            by_cases h3 : b.toNat < 224
            · simp only [h3, if_true, List.length_cons]; omega
            · simp only [h3, if_false]
              rcases rest1 with _ | ⟨b2, rest2⟩
              · simp
              · by_cases hb2 : b2.toNat < 128 ∨ 191 < b2.toNat
                · simp only [hb2, if_true, List.length_cons]; omega
                · simp only [hb2, if_false]
                  by_cases h4 : b.toNat < 240
                  · simp only [h4, if_true, List.length_cons]; omega
                  · simp only [h4, if_false]
                    rcases rest2 with _ | ⟨b3, rest3⟩
                    · simp
                    · by_cases hb3 : b3.toNat < 128 ∨ 191 < b3.toNat
                      · simp only [hb3, if_true, List.length_cons]; omega
                      · simp only [hb3, if_false, List.length_cons]; omega

theorem decodeLastRune_size_pos (p : GoString) (hp : p ≠ []) :
    1 ≤ (decodeLastRune p).2 := by
  unfold decodeLastRune
  cases hl : p.getLast? with
  | none =>
    rw [List.getLast?_eq_none_iff] at hl
    exact absurd hl hp
  | some l =>
    simp only
    by_cases h1 : l.toNat < 0x80
    · simp only [h1, if_true]; omega
    · simp only [h1, if_false]
      split_ifs with hcond
      · simp
      · have hlen : 0 < p.length := List.length_pos.mpr hp
        simp only [ne_eq, Decidable.not_not] at hcond
        split at hcond
        · rename_i k hk
          have hmem := List.mem_of_find?_eq_some hk
          simp only [List.mem_filter, List.mem_cons, List.mem_singleton,
            decide_eq_true_eq, List.not_mem_nil, or_false] at hmem
          have hk0 : 0 < k := by
            rcases hmem.1 with h | h | h <;> omega
          have hlt : p.length - k < p.length := Nat.sub_lt hlen hk0
          generalize (decodeRune (List.drop (p.length - k) p)).2 = w at hcond ⊢
          generalize p.length - k = st at hcond hlt
          omega
        · have hlt : p.length - 5 < p.length := Nat.sub_lt hlen (by omega)
          generalize (decodeRune (List.drop (p.length - 5) p)).2 = w at hcond ⊢
          generalize p.length - 5 = st at hcond hlt
          omega

theorem lastIndexLoop_lt (l : GoString) :
    ∀ (skip i : Nat), lastIndexLoop skip l = some i → i < l.length := by
  induction l with
  | nil => intro skip i h; simp [lastIndexLoop] at h
  | cons b rest ih =>
    intro skip i h
    cases skip with
    | succ k =>
      simp only [lastIndexLoop] at h
      have := ih k i h
      simp only [List.length_cons]; omega
    | zero =>
      simp only [lastIndexLoop] at h
      split_ifs at h with hsp
      · have := ih _ i h
        simp only [List.length_cons]; omega
      · have hpos := decodeLastRune_size_pos (b :: rest).reverse (by simp)
        simp only [Option.some.injEq] at h
        simp only [List.length_cons] at h ⊢
        omega

theorem trimLeftLoop_append_cr (s : GoString) :
    ∀ skip : Nat,
      (trimLeftLoop skip (s ++ [0x0D]) = [] ∧ trimLeftLoop skip s = []) ∨
      trimLeftLoop skip (s ++ [0x0D]) = trimLeftLoop skip s ++ [0x0D] := by
  induction s with
  | nil =>
    intro skip
    left
    cases skip with
    | succ k => simp [trimLeftLoop]
    | zero =>
      have hd : decodeRune [(0x0D : UInt8)] = (0x0D, 1) := by decide
      have hsp : isSpace 0x0D = true := by decide
      simp [trimLeftLoop, hd, hsp]
  | cons b rest ih =>
    intro skip
    rw [List.cons_append]
    cases skip with
    | succ k => simpa only [trimLeftLoop] using ih k
    | zero =>
      have hd := decodeRune_append_cr b rest
      rw [List.cons_append] at hd
      simp only [trimLeftLoop, hd]
      split_ifs with hsp
      · exact ih _
      · right; rfl

theorem decodeLastRune_append_cr (t : GoString) :
    decodeLastRune (t ++ [0x0D]) = (0x0D, 1) := by
  unfold decodeLastRune
  rw [List.getLast?_concat]
  have h1 : (0x0D : UInt8).toNat < 0x80 := by decide
  simp only [h1, if_true]
  rfl

theorem TrimRightSpace_append_cr (t : GoString) :
    TrimRightSpace (t ++ [0x0D]) = TrimRightSpace t := by
  have hsp : isSpace 0x0D = true := by decide
  have hidx : lastIndexLoop 0 (t ++ [0x0D]).reverse = lastIndexLoop 0 t.reverse := by
    have hrev : (t ++ [0x0D]).reverse = 0x0D :: t.reverse := by simp
    have hback : ((0x0D : UInt8) :: t.reverse).reverse = t ++ [0x0D] := by simp
    rw [hrev]
    simp only [lastIndexLoop, hback, decodeLastRune_append_cr, hsp, if_true]
  unfold TrimRightSpace
  rw [hidx]
  cases hr : lastIndexLoop 0 t.reverse with
  | none => rfl
  | some i =>
    have hi : i < t.length := by
      have := lastIndexLoop_lt t.reverse 0 i hr
      simpa using this
    have hget : (t ++ [0x0D]).getD i 0 = t.getD i 0 := by
      simp only [List.getD_eq_getElem?_getD, List.getElem?_append_left hi]
    have hdrop : decodeRune ((t ++ [0x0D]).drop i) = decodeRune (t.drop i) := by
      rw [List.drop_append_of_le_length (Nat.le_of_lt hi)]
      cases hd : t.drop i with
      | nil =>
        have := congrArg List.length hd
        simp at this
        omega
      | cons b rest => exact decodeRune_append_cr b rest
    simp only [hget, hdrop]
    split_ifs
    · have hw := decodeRune_size_le (t.drop i)
      rw [List.length_drop] at hw
      exact List.take_append_of_le_length (by omega)
    · exact List.take_append_of_le_length (by omega)

/-- A carriage return at the end of a line is white space: trimming removes it. -/
theorem TrimSpace_append_cr (s : GoString) : TrimSpace (s ++ [0x0D]) = TrimSpace s := by
  unfold TrimSpace TrimLeftSpace
  rcases trimLeftLoop_append_cr s 0 with ⟨h1, h2⟩ | h
  · rw [h1, h2]
  · rw [h, TrimRightSpace_append_cr]

/-- The trimmed text of a line is the same with and without the carriage return
that the scanner drops. -/
theorem TrimSpace_dropCR (l : GoString) : TrimSpace (dropCR l) = TrimSpace l := by
  unfold dropCR
  split_ifs with h
  · have hl : l.dropLast ++ [0x0D] = l := List.dropLast_append_getLast? _ h
    conv_rhs => rw [← hl]
    rw [TrimSpace_append_cr]
  · rfl

/-! ## The lines of the input and the lines the scanner delivers -/

theorem takeWhile_append_of_length_le {α : Type} (p : α → Bool) (a b : List α)
    (h : ((a ++ b).takeWhile p).length ≤ a.length) :
    (a ++ b).takeWhile p = a.takeWhile p := by
  induction a with
  | nil =>
    simp only [List.nil_append, List.length_nil, Nat.le_zero] at h
    rw [List.nil_append, List.length_eq_zero.mp h]
    rfl
  | cons x rest ih =>
    rw [List.cons_append] at h ⊢
    cases hx : p x with
    | false => simp [List.takeWhile_cons, hx]
    | true =>
      simp only [List.takeWhile_cons, hx, if_true, List.length_cons] at h ⊢
      rw [ih (by omega)]

/-- The scanner delivers the lines of the input in order, all of them or up to
a line that does not fit its buffer. -/
theorem scanLinesFrom_prefix (s : GoString) :
    ∀ cur : GoString, ∃ tail,
      (inputLinesFrom cur s).map dropCR = scanLinesFrom cur s ++ tail ∧
      (tail = [] ∨ ∃ r, (inputLinesFrom cur s)[(scanLinesFrom cur s).length]? = some r ∧
        maxScanTokenSize ≤ r.length) := by
  induction s with
  | nil =>
    intro cur
    by_cases hc : cur = []
    · exact ⟨[], by simp [inputLinesFrom, scanLinesFrom, hc], Or.inl rfl⟩
    · by_cases hlong : maxScanTokenSize ≤ cur.length
      · exact ⟨[dropCR cur], by simp [inputLinesFrom, scanLinesFrom, hc, hlong],
          Or.inr ⟨cur, by simp [inputLinesFrom, scanLinesFrom, hc, hlong], hlong⟩⟩
      · exact ⟨[], by simp [inputLinesFrom, scanLinesFrom, hc, hlong], Or.inl rfl⟩
  | cons b rest ih =>
    intro cur
    by_cases hb : b = 0x0A
    · by_cases hlong : maxScanTokenSize ≤ cur.length
      · exact ⟨dropCR cur :: (inputLinesFrom [] rest).map dropCR,
          by simp [inputLinesFrom, scanLinesFrom, hb, hlong],
          Or.inr ⟨cur, by simp [inputLinesFrom, scanLinesFrom, hb, hlong], hlong⟩⟩
      · obtain ⟨tail, ht, hcase⟩ := ih []
        refine ⟨tail, by simp [inputLinesFrom, scanLinesFrom, hb, hlong, ht], ?_⟩
        rcases hcase with hcase | ⟨r, hr, hlen⟩
        · exact Or.inl hcase
        · exact Or.inr ⟨r, by simpa [inputLinesFrom, scanLinesFrom, hb, hlong] using hr, hlen⟩
    · obtain ⟨tail, ht, hcase⟩ := ih (cur ++ [b])
      refine ⟨tail, by simp only [inputLinesFrom, scanLinesFrom, hb, if_false, ht], ?_⟩
      simpa only [inputLinesFrom, scanLinesFrom, hb, if_false] using hcase

theorem isHeaderLine_dropCR (l : GoString) :
    isHeaderLine (dropCR l) = isHeaderLine l := by
  unfold isHeaderLine
  rw [TrimSpace_dropCR]

theorem takeWhile_map_dropCR (ls : List GoString) :
    (ls.map dropCR).takeWhile isHeaderLine
      = (ls.takeWhile isHeaderLine).map dropCR := by
  induction ls with
  | nil => rfl
  | cons l rest ih =>
    simp only [List.map_cons, List.takeWhile_cons, isHeaderLine_dropCR]
    split_ifs
    · rw [List.map_cons, ih]
    · rfl

/-- The loop gives the same result on lines with and without the carriage
return that the scanner drops: it only uses the trimmed text of a line. -/
theorem headerLoop_map_dropCR (ls : List GoString) :
    ∀ (line : Nat) (pf pm : GoString),
      headerLoop (ls.map dropCR) line pf pm = headerLoop ls line pf pm := by
  induction ls with
  | nil => intro line pf pm; rfl
  | cons l rest ih =>
    intro line pf pm
    simp only [List.map_cons, headerLoop, TrimSpace_dropCR, ih]

theorem headerBlock_isHeaderLine (input l : GoString) (h : l ∈ headerBlock input) :
    isHeaderLine l = true := by
  unfold headerBlock at h
  exact List.mem_takeWhile_imp h

/-- A line with index `n` in the header block has index `n` among the lines of
the input. -/
theorem headerBlock_index (input : GoString) (pre post : List GoString)
    (l : GoString) (h : headerBlock input = pre ++ l :: post) :
    (inputLines input)[pre.length]? = some l := by
  obtain ⟨t, ht⟩ : headerBlock input <+: inputLines input :=
    List.takeWhile_prefix isHeaderLine
  rw [← ht, h, List.append_assoc, List.getElem?_append_right (le_refl _)]
  simp

/-- When the lines of the header block fit the buffer of the scanner,
`extractHeaders` is the loop run on the header block. -/
theorem extractHeaders_eq_headerBlock (input : GoString)
    (hfit : headerLinesFit input = true) :
    extractHeaders input = headerLoop (headerBlock input) 0 [] [] := by
  obtain ⟨tail, ht, hcase⟩ := scanLinesFrom_prefix input []
  have hlines : (inputLines input).map dropCR = scanLines input ++ tail := ht
  have hblock : (scanLines input).takeWhile isHeaderLine
      = ((inputLines input).map dropCR).takeWhile isHeaderLine := by
    rcases hcase with hcase | ⟨r, hr, hlen⟩
    · rw [hlines, hcase, List.append_nil]
    · have hle : (headerBlock input).length ≤ (scanLines input).length := by
        by_contra hcon
        have hlt : (scanLines input).length < (headerBlock input).length := by omega
        obtain ⟨t, ht2⟩ : headerBlock input <+: inputLines input :=
          List.takeWhile_prefix isHeaderLine
        have hr2 : (inputLines input)[(scanLines input).length]? = some r := hr
        rw [← ht2, List.getElem?_append_left hlt] at hr2
        have hmem : r ∈ headerBlock input := List.getElem?_mem hr2
        unfold headerLinesFit at hfit
        rw [List.all_eq_true] at hfit
        have := hfit r hmem
        simp at this
        omega
      rw [hlines]
      refine (takeWhile_append_of_length_le isHeaderLine _ _ ?_).symm
      rw [← hlines, takeWhile_map_dropCR, List.length_map]
      exact hle
  unfold extractHeaders
  rw [headerLoop_takeWhile, hblock, takeWhile_map_dropCR, headerLoop_map_dropCR]
  rfl

theorem extractHeaders_eq_inputLines (input : GoString)
    (hfit : headerLinesFit input = true) :
    extractHeaders input = headerLoop (inputLines input) 0 [] [] := by
  rw [extractHeaders_eq_headerBlock input hfit]
  unfold headerBlock
  exact (headerLoop_takeWhile _ 0 [] []).symm

/-! ## A line of comment markers -/

theorem decodeRune_hash (rest : GoString) :
    decodeRune ((0x23 : UInt8) :: rest) = (0x23, 1) := by
  unfold decodeRune
  have h1 : (0x23 : UInt8).toNat < 0x80 := by decide
  simp only [h1, if_true]
  rfl

theorem scanLinesFrom_hashes (n : Nat) (rest : GoString) :
    ∀ cur : GoString, scanLinesFrom cur (List.replicate n 0x23 ++ rest)
      = scanLinesFrom (cur ++ List.replicate n 0x23) rest := by
  induction n with
  | zero => intro cur; simp
  | succ k ih =>
    intro cur
    have hne : ¬ (0x23 : UInt8) = 0x0A := by decide
    rw [List.replicate_succ, List.cons_append]
    simp only [scanLinesFrom, hne, if_false]
    rw [ih (cur ++ [0x23])]
    simp

theorem inputLinesFrom_hashes (n : Nat) (rest : GoString) :
    ∀ cur : GoString, inputLinesFrom cur (List.replicate n 0x23 ++ rest)
      = inputLinesFrom (cur ++ List.replicate n 0x23) rest := by
  induction n with
  | zero => intro cur; simp
  | succ k ih =>
    intro cur
    have hne : ¬ (0x23 : UInt8) = 0x0A := by decide
    rw [List.replicate_succ, List.cons_append]
    simp only [inputLinesFrom, hne, if_false]
    rw [ih (cur ++ [0x23])]
    simp

theorem fieldsLoop_hashes (n : Nat) :
    ∀ cur : GoString, cur ≠ [] →
      fieldsLoop 0 false cur (List.replicate n 0x23) = [cur ++ List.replicate n 0x23] := by
  induction n with
  | zero => intro cur hc; simp [fieldsLoop, hc]
  | succ k ih =>
    intro cur hc
    have hns : isSpace 0x23 = false := by decide
    rw [List.replicate_succ]
    simp only [fieldsLoop, decodeRune_hash, hns]
    have := ih (cur ++ [0x23]) (by simp)
    simpa using this

theorem Fields_hashes (n : Nat) :
    Fields (List.replicate (n + 1) 0x23) = [List.replicate (n + 1) 0x23] := by
  have hns : isSpace 0x23 = false := by decide
  unfold Fields
  rw [List.replicate_succ]
  simp only [fieldsLoop, decodeRune_hash, hns]
  have := fieldsLoop_hashes n [0x23] (by simp)
  simpa using this

theorem TrimSpace_hashes (n : Nat) :
    TrimSpace (List.replicate (n + 1) 0x23) = List.replicate (n + 1) 0x23 := by
  have hns : isSpace 0x23 = false := by decide
  have hleft : TrimLeftSpace (List.replicate (n + 1) 0x23)
      = List.replicate (n + 1) 0x23 := by
    unfold TrimLeftSpace
    rw [List.replicate_succ]
    simp only [trimLeftLoop, decodeRune_hash, hns]
    simp
  have hlast : decodeLastRune (List.replicate (n + 1) (0x23 : UInt8)) = (0x23, 1) := by
    unfold decodeLastRune
    rw [List.getLast?_replicate]
    have h1 : (0x23 : UInt8).toNat < 0x80 := by decide
    simp only [Nat.add_one_ne_zero, if_false, h1, if_true]
    rfl
  have hidx : lastIndexLoop 0 (List.replicate (n + 1) (0x23 : UInt8)) = some n := by
    have hrev : ((0x23 : UInt8) :: List.replicate n 0x23).reverse
        = List.replicate (n + 1) 0x23 := by
      rw [← List.replicate_succ, List.reverse_replicate]
    rw [List.replicate_succ]
    simp only [lastIndexLoop, hrev, hlast, hns]
    simp
  unfold TrimSpace
  rw [hleft]
  unfold TrimRightSpace
  rw [List.reverse_replicate, hidx]
  have hget : (List.replicate (n + 1) (0x23 : UInt8)).getD n 0 = 0x23 := by
    simp
  have h2 : ¬ 0x80 ≤ (0x23 : UInt8).toNat := by decide
  simp only [hget, h2, if_false]
  exact List.take_of_length_le (by simp)

theorem isHeaderLine_hashes (n : Nat) :
    isHeaderLine (List.replicate (n + 1) 0x23) = true := by
  unfold isHeaderLine HasPrefix
  rw [TrimSpace_hashes, lit_hash, List.replicate_succ]
  simp [List.isPrefixOf]

theorem directiveValue_hashes (key : GoString) (n : Nat) :
    directiveValue key (List.replicate (n + 1) 0x23) = none := by
  apply directiveValue_of_length_ne
  rw [TrimSpace_hashes, Fields_hashes]
  simp

theorem longLine_eq : longLine = List.replicate (65535 + 1) 0x23 := by
  unfold longLine
  rfl

theorem longLine_length : maxScanTokenSize ≤ longLine.length := by
  unfold longLine
  rw [List.length_replicate]


/-! ## `extractHeaders` on inputs whose header lines fit the scanner -/

/-- When the lines of the header block fit the buffer of the scanner,
`extractHeaders` succeeds if and only if the header block has exactly one
directive line of each key, and it then returns the values of those lines. -/
theorem extractHeaders_fit_succeeds_iff (input : GoString)
    (hfit : headerLinesFit input = true) :
    ((extractHeaders input).err = none ↔
      directiveCount keyFile (headerBlock input) = 1 ∧
        directiveCount keyMessage (headerBlock input) = 1) ∧
    ((extractHeaders input).err = none →
      ∀ l ∈ headerBlock input, ∀ v,
        (directiveValue keyFile l = some v → (extractHeaders input).protoFile = v) ∧
        (directiveValue keyMessage l = some v → (extractHeaders input).protoMsg = v)) := by
  have hall := headerBlock_isHeaderLine input
  rw [extractHeaders_eq_headerBlock input hfit]
  refine ⟨⟨headerRun_ok_counts _ hall, fun h => ?_⟩, fun hok l hl v =>
    headerRun_ok_values _ hall hok l v hl⟩
  rw [headerRun_of_counts _ hall h.1 h.2]

/-- When the lines of the header block fit the buffer of the scanner and the
header block has two directive lines for a key, `extractHeaders` fails with
the duplicate error of the earliest line that repeats a key, numbered by the
index of that line among the lines of the input, and `validateTextproto`
returns that error. -/
theorem extractHeaders_fit_duplicate (input : GoString)
    (hfit : headerLinesFit input = true)
    (h : 2 ≤ directiveCount keyFile (headerBlock input) ∨
      2 ≤ directiveCount keyMessage (headerBlock input)) :
    ∃ pre l post, headerBlock input = pre ++ l :: post ∧
      (inputLines input)[pre.length]? = some l ∧
      directiveCount keyFile pre ≤ 1 ∧ directiveCount keyMessage pre ≤ 1 ∧
      ((isDirective keyFile l = true ∧ directiveCount keyFile pre = 1 ∧
          extractHeaders input = ⟨[], [], some (errDupFile pre.length)⟩ ∧
          ∀ (lib : Libraries) (reader : fileReader) (txtpb : GoString),
            reader.ReadFile txtpb = .ok input →
            validateTextproto lib reader txtpb = some (errDupFile pre.length)) ∨
        (isDirective keyMessage l = true ∧ directiveCount keyMessage pre = 1 ∧
          extractHeaders input = ⟨[], [], some (errDupMessage pre.length)⟩ ∧
          ∀ (lib : Libraries) (reader : fileReader) (txtpb : GoString),
            reader.ReadFile txtpb = .ok input →
            validateTextproto lib reader txtpb = some (errDupMessage pre.length))) := by
  obtain ⟨pre, l, post, heq, c1, c2, hres⟩ :=
    headerLoop_dup (headerBlock input) (headerBlock_isHeaderLine input) 0 [] []
      (by simpa [setCount] using h)
  have h0 : setCount ([] : GoString) = 0 := by simp [setCount]
  rw [h0, Nat.zero_add] at c1 c2
  rw [← extractHeaders_eq_headerBlock input hfit, Nat.zero_add] at hres
  refine ⟨pre, l, post, heq, headerBlock_index input pre post l heq, c1, c2, ?_⟩
  rcases hres with ⟨d, c, r⟩ | ⟨d, c, r⟩
  · rw [h0, Nat.zero_add] at c
    exact Or.inl ⟨d, c, r, fun lib reader txtpb hread =>
      validateTextproto_header_err lib reader txtpb input _ hread (by rw [r])⟩
  · rw [h0, Nat.zero_add] at c
    exact Or.inr ⟨d, c, r, fun lib reader txtpb hread =>
      validateTextproto_header_err lib reader txtpb input _ hread (by rw [r])⟩

/-- When the lines of the header block fit the buffer of the scanner and the
header block has no duplicate directive: no proto-file directive gives "could
not find proto-file comment"; otherwise, no proto-message directive gives
"could not find proto-message comment"; both returned strings are empty. -/
theorem extractHeaders_fit_missing (input : GoString)
    (hfit : headerLinesFit input = true)
    (hf : directiveCount keyFile (headerBlock input) ≤ 1)
    (hm : directiveCount keyMessage (headerBlock input) ≤ 1) :
    (directiveCount keyFile (headerBlock input) = 0 →
      extractHeaders input
        = ⟨[], [], some (.new (lit "could not find proto-file comment"))⟩) ∧
    (directiveCount keyFile (headerBlock input) ≠ 0 →
      directiveCount keyMessage (headerBlock input) = 0 →
      extractHeaders input
        = ⟨[], [], some (.new (lit "could not find proto-message comment"))⟩) := by
  have hall := headerBlock_isHeaderLine input
  rw [extractHeaders_eq_headerBlock input hfit, headerRun_noDup _ hall hf hm]
  constructor
  · intro h0
    rw [firstValue_of_count_zero _ _ h0]
    simp [finishHeaders]
  · intro h1 h0
    rw [firstValue_of_count_zero _ _ h0]
    have hne := firstValue_ne_nil keyFile (headerBlock input) (by omega)
    simp [finishHeaders, hne]

/-- C6, amended. For every input whose header-block lines each have fewer than
65536 bytes, and for every header-block line that splits into four or more
fields, `extractHeaders` does not recognize the line as a directive of either
key, and the result is the same as if the line were an ordinary comment of
fewer than 65536 bytes (a header line that does not split into three fields).
If no line of the header block sets `proto-file:`, the call fails, with
"could not find proto-file comment" unless `proto-message:` is duplicated; if
no line sets `proto-message:`, the call fails, with "could not find
proto-file comment" when `proto-file:` is unset too and with "could not find
proto-message comment" when exactly one line sets `proto-file:`. -/
theorem extractHeaders_extra_token (input l : GoString)
    (hfit : headerLinesFit input = true)
    (hl : l ∈ headerBlock input) (h4 : 4 ≤ (Fields (TrimSpace l)).length) :
    (isDirective keyFile l = false ∧ isDirective keyMessage l = false) ∧
    (∀ (input2 c : GoString) (pre post : List GoString),
      headerLinesFit input2 = true →
      inputLines input = pre ++ l :: post → inputLines input2 = pre ++ c :: post →
      isHeaderLine c = true → (Fields (TrimSpace c)).length ≠ 3 →
      extractHeaders input = extractHeaders input2) ∧
    (directiveCount keyFile (headerBlock input) = 0 →
      (extractHeaders input).err ≠ none ∧
      (directiveCount keyMessage (headerBlock input) ≤ 1 →
        extractHeaders input
          = ⟨[], [], some (.new (lit "could not find proto-file comment"))⟩)) ∧
    (directiveCount keyMessage (headerBlock input) = 0 →
      (extractHeaders input).err ≠ none ∧
      (directiveCount keyFile (headerBlock input) = 0 →
        extractHeaders input
          = ⟨[], [], some (.new (lit "could not find proto-file comment"))⟩) ∧
      (directiveCount keyFile (headerBlock input) = 1 →
        extractHeaders input
          = ⟨[], [], some (.new (lit "could not find proto-message comment"))⟩)) := by
  have hlen : (Fields (TrimSpace l)).length ≠ 3 := by omega
  have hlf := directiveValue_of_length_ne keyFile l hlen
  have hlm := directiveValue_of_length_ne keyMessage l hlen
  have hhead := headerBlock_isHeaderLine input l hl
  have hall := headerBlock_isHeaderLine input
  have hrun := extractHeaders_eq_headerBlock input hfit
  refine ⟨⟨isDirective_of_none hlf, isDirective_of_none hlm⟩, ?_, ?_, ?_⟩
  · intro input2 c pre post hfit2 h1 h2 hc hclen
    rw [extractHeaders_eq_inputLines input hfit,
      extractHeaders_eq_inputLines input2 hfit2, h1, h2]
    exact headerLoop_swap_comment l c post hhead hc
      hlf hlm (directiveValue_of_length_ne keyFile c hclen)
      (directiveValue_of_length_ne keyMessage c hclen) pre 0 [] []
  · intro h0
    rw [hrun]
    refine ⟨fun hok => ?_, fun hm => ?_⟩
    · have := (headerRun_ok_counts _ hall hok).1
      omega
    · rw [headerRun_noDup _ hall (by omega) hm, firstValue_of_count_zero _ _ h0]
      simp [finishHeaders]
  · intro h0
    rw [hrun]
    refine ⟨fun hok => ?_, fun hf => ?_, fun hf => ?_⟩
    · have := (headerRun_ok_counts _ hall hok).2
      omega
    · rw [headerRun_noDup _ hall (by omega) (by omega),
        firstValue_of_count_zero _ _ hf]
      simp [finishHeaders]
    · rw [headerRun_noDup _ hall (by omega) (by omega),
        firstValue_of_count_zero _ _ h0]
      have hne := firstValue_ne_nil keyFile (headerBlock input) (by omega)
      simp [finishHeaders, hne]

/-- The test case "Missing proto-file due to extra invalid characters" of the
repository. -/
theorem extractHeaders_extra_token_witness :
    extractHeaders (lit "# proto-file: valid.proto junk\n# proto-message: Example\n\n")
      = ⟨[], [], some (.new (lit "could not find proto-file comment"))⟩ :=
  ((extractHeaders_extra_token
    (lit "# proto-file: valid.proto junk\n# proto-message: Example\n\n")
    (lit "# proto-file: valid.proto junk") (by decide) (by decide) (by decide)).2.2.1
      (by decide)).2 (by decide)

/-- C7, amended. A header-block line is recognized by `extractHeaders` as a
directive when it splits into exactly three fields whose second field is the
key; its first field begins with the comment marker, as the line does, and
is otherwise free.  For every input whose header-block lines each have fewer
than 65536 bytes and whose header block has a three-field line with key
`proto-file:`, `extractHeaders` does not fail with "could not find proto-file
comment" and, when it succeeds, returns the third field of that line as the
schema path; symmetrically for `proto-message:`. -/
theorem extractHeaders_marker (input l m v : GoString)
    (hfit : headerLinesFit input = true) (hl : l ∈ headerBlock input) :
    (Fields (TrimSpace l) = [m, keyFile, v] →
      m.head? = some 0x23 ∧
      (extractHeaders input).err
        ≠ some (.new (lit "could not find proto-file comment")) ∧
      ((extractHeaders input).err = none → (extractHeaders input).protoFile = v)) ∧
    (Fields (TrimSpace l) = [m, keyMessage, v] →
      m.head? = some 0x23 ∧
      (extractHeaders input).err
        ≠ some (.new (lit "could not find proto-message comment")) ∧
      ((extractHeaders input).err = none → (extractHeaders input).protoMsg = v)) := by
  have hall := headerBlock_isHeaderLine input
  have hmarker : ∀ k, Fields (TrimSpace l) = [m, k, v] → m.head? = some 0x23 := by
    intro k hk
    obtain ⟨f, fs, h1, h2⟩ := Fields_head_of_isHeaderLine l (hall l hl)
    rw [hk] at h1
    injection h1 with h1 _
    rw [h1]; exact h2
  rw [extractHeaders_eq_headerBlock input hfit]
  constructor
  · intro hF
    have hv : directiveValue keyFile l = some v := by
      simp [directiveValue, hF]
    refine ⟨hmarker _ hF, ?_, fun hok => ?_⟩
    · exact (headerRun_not_missing _ hall).1 (directiveCount_pos_of_mem hl hv)
    · exact (headerRun_ok_values _ hall hok l v hl).1 hv
  · intro hF
    have hv : directiveValue keyMessage l = some v := by
      simp [directiveValue, hF]
    refine ⟨hmarker _ hF, ?_, fun hok => ?_⟩
    · exact (headerRun_not_missing _ hall).2 (directiveCount_pos_of_mem hl hv)
    · exact (headerRun_ok_values _ hall hok l v hl).2 hv

/-- The line `#x proto-file: valid.proto` sets the schema path. -/
theorem extractHeaders_marker_witness :
    (extractHeaders (lit "#x proto-file: valid.proto\n# proto-message: Example\n")).err
      ≠ some (.new (lit "could not find proto-file comment")) :=
  ((extractHeaders_marker
    (lit "#x proto-file: valid.proto\n# proto-message: Example\n")
    (lit "#x proto-file: valid.proto") (lit "#x") (lit "valid.proto")
    (by decide) (by decide)).1 (by decide)).2.1


/-! ## `extractHeaders` on inputs with a long line -/

theorem isHeaderLine_longLine : isHeaderLine longLine = true := by
  rw [longLine_eq]; exact isHeaderLine_hashes 65535

theorem isDirective_longLine (key : GoString) : isDirective key longLine = false := by
  rw [longLine_eq]; exact isDirective_of_none (directiveValue_hashes key 65535)

/-- The lines of a text that ends at a line boundary, followed by more text. -/
theorem inputLinesFrom_append (p rest : GoString) :
    ∀ cur : GoString, (p = [] ∧ cur = [] ∨ p.getLast? = some 0x0A) →
      inputLinesFrom cur (p ++ rest) = inputLinesFrom cur p ++ inputLinesFrom [] rest := by
  induction p with
  | nil =>
    intro cur h
    rcases h with ⟨_, hc⟩ | h
    · subst hc; simp [inputLinesFrom]
    · simp at h
  | cons b p2 ih =>
    intro cur h
    have hlast : (b :: p2).getLast? = some 0x0A := by
      rcases h with ⟨h, _⟩ | h
      · simp at h
      · exact h
    rw [List.cons_append]
    by_cases hb : b = 0x0A
    · have hp2 : p2 = [] ∧ ([] : GoString) = [] ∨ p2.getLast? = some 0x0A := by
        cases p2 with
        | nil => exact Or.inl ⟨rfl, rfl⟩
        | cons c p3 =>
          right
          rw [List.getLast?_cons_cons] at hlast
          exact hlast
      simp only [inputLinesFrom, hb, if_true, ih [] hp2, List.cons_append]
    · have hp2 : p2.getLast? = some 0x0A := by
        cases p2 with
        | nil =>
          simp at hlast
          exact absurd hlast hb
        | cons c p3 =>
          rw [List.getLast?_cons_cons] at hlast
          exact hlast
      simp only [inputLinesFrom, hb, if_false, ih (cur ++ [b]) (Or.inr hp2)]

/-- The scanner delivers nothing from a text that starts with the long line. -/
theorem scanLines_longLine (rest : GoString) : scanLines (longLine ++ rest) = [] := by
  unfold scanLines
  rw [longLine_eq, scanLinesFrom_hashes, List.nil_append, ← longLine_eq]
  exact scanLinesFrom_too_long rest longLine longLine_length

/-- The long line is the first line of a text that starts with it and a line
feed. -/
theorem inputLines_longLine (rest : GoString) :
    inputLines (longLine ++ 0x0A :: rest) = longLine :: inputLines rest := by
  unfold inputLines
  rw [longLine_eq, inputLinesFrom_hashes, List.nil_append, ← longLine_eq]
  simp only [inputLinesFrom, if_true]

/-- C1, evaluated on the code. The input is a comment line of 65536 bytes
followed by one directive line of each key: its header block has three lines,
with exactly one directive line for `proto-file:` and exactly one for
`proto-message:`, so that the call has to succeed with the values `a` and `B`;
the scanner gives up on the first line, the loop ends without a word, and
`extractHeaders` fails with "could not find proto-file comment". -/
theorem extractHeaders_long_comment_first :
    headerBlock longFirstInput
      = [longLine, lit "# proto-file: a", lit "# proto-message: B"] ∧
    directiveCount keyFile (headerBlock longFirstInput) = 1 ∧
    directiveCount keyMessage (headerBlock longFirstInput) = 1 ∧
    extractHeaders longFirstInput
      = ⟨[], [], some (.new (lit "could not find proto-file comment"))⟩ := by
  have hlines : inputLines (lit "# proto-file: a\n# proto-message: B\n")
      = [lit "# proto-file: a", lit "# proto-message: B"] := by decide
  have h1 : isHeaderLine (lit "# proto-file: a") = true := by decide
  have h2 : isHeaderLine (lit "# proto-message: B") = true := by decide
  have hb : headerBlock longFirstInput
      = [longLine, lit "# proto-file: a", lit "# proto-message: B"] := by
    unfold headerBlock longFirstInput
    rw [inputLines_longLine, hlines]
    simp only [List.takeWhile_cons, List.takeWhile_nil, isHeaderLine_longLine, h1, h2,
      if_true]
  have c1 : directiveCount keyFile [lit "# proto-file: a", lit "# proto-message: B"]
      = 1 := by decide
  have c2 : directiveCount keyMessage [lit "# proto-file: a", lit "# proto-message: B"]
      = 1 := by decide
  refine ⟨hb, ?_, ?_, ?_⟩
  · rw [hb, directiveCount_cons, isDirective_longLine, c1]
    simp
  · rw [hb, directiveCount_cons, isDirective_longLine, c2]
    simp
  · unfold extractHeaders longFirstInput
    rw [scanLines_longLine]
    decide

/-- C2, evaluated on the code. The input has the lines `# proto-file: a`, a
comment line of 65536 bytes and `# proto-file: b`: its header block has these
three lines and two directive lines for `proto-file:`, the second at index 2,
so that the call has to fail with "duplicate proto-file at line 2"; the
scanner gives up on the long line, the second directive is never seen, and
`extractHeaders` fails with "could not find proto-message comment". -/
theorem extractHeaders_long_comment_between :
    headerBlock longBetweenInput
      = [lit "# proto-file: a", longLine, lit "# proto-file: b"] ∧
    directiveCount keyFile (headerBlock longBetweenInput) = 2 ∧
    isDirective keyFile (lit "# proto-file: b") = true ∧
    extractHeaders longBetweenInput
      = ⟨[], [], some (.new (lit "could not find proto-message comment"))⟩ ∧
    GoError.new (lit "could not find proto-message comment")
      ≠ .new (lit "duplicate proto-file at line 2") := by
  have hp : lit "# proto-file: a\n" = [] ∧ ([] : GoString) = [] ∨
      (lit "# proto-file: a\n").getLast? = some 0x0A := Or.inr (by decide)
  have hl1 : inputLines (lit "# proto-file: a\n") = [lit "# proto-file: a"] := by decide
  have hl2 : inputLines (lit "# proto-file: b\n") = [lit "# proto-file: b"] := by decide
  have h1 : isHeaderLine (lit "# proto-file: a") = true := by decide
  have h2 : isHeaderLine (lit "# proto-file: b") = true := by decide
  have hb : headerBlock longBetweenInput
      = [lit "# proto-file: a", longLine, lit "# proto-file: b"] := by
    have hlines : inputLines longBetweenInput
        = [lit "# proto-file: a", longLine, lit "# proto-file: b"] := by
      have hrest := inputLines_longLine (lit "# proto-file: b\n")
      unfold inputLines at hrest hl1 hl2 ⊢
      unfold longBetweenInput
      rw [inputLinesFrom_append _ _ [] hp, hrest, hl1, hl2]
      rfl
    unfold headerBlock
    rw [hlines]
    simp only [List.takeWhile_cons, List.takeWhile_nil, isHeaderLine_longLine, h1, h2,
      if_true]
  have d1 : isDirective keyFile (lit "# proto-file: a") = true := by decide
  have d2 : isDirective keyFile (lit "# proto-file: b") = true := by decide
  refine ⟨hb, ?_, d2, ?_, by decide⟩
  · rw [hb, directiveCount_cons, directiveCount_cons, directiveCount_cons,
      isDirective_longLine, d1, d2]
    simp [directiveCount]
  · obtain ⟨tail, ht, hcase⟩ := scanLinesFrom_append (lit "# proto-file: a\n")
      (longLine ++ 0x0A :: lit "# proto-file: b\n") [] hp
    have hempty : scanLinesFrom [] (longLine ++ 0x0A :: lit "# proto-file: b\n") = [] :=
      scanLines_longLine _
    have htail : tail = [] := by
      rcases hcase with hcase | hcase
      · exact hcase
      · rw [hcase, hempty]
    have hscan : scanLinesFrom [] (lit "# proto-file: a\n") = [lit "# proto-file: a"] := by
      decide
    unfold extractHeaders scanLines longBetweenInput
    rw [ht, htail, List.append_nil, hscan]
    decide

/-- C3, evaluated on the code. The input is a comment line of 65536 bytes
followed by `# proto-file: a`: its header block has these two lines, with one
directive line for `proto-file:`, none for `proto-message:` and no duplicate,
so that the call has to fail with "could not find proto-message comment";
the scanner gives up on the first line and `extractHeaders` fails with
"could not find proto-file comment". -/
theorem extractHeaders_long_comment_before_file :
    headerBlock longBeforeFileInput = [longLine, lit "# proto-file: a"] ∧
    directiveCount keyFile (headerBlock longBeforeFileInput) = 1 ∧
    directiveCount keyMessage (headerBlock longBeforeFileInput) = 0 ∧
    extractHeaders longBeforeFileInput
      = ⟨[], [], some (.new (lit "could not find proto-file comment"))⟩ ∧
    GoError.new (lit "could not find proto-file comment")
      ≠ .new (lit "could not find proto-message comment") := by
  have hlines : inputLines (lit "# proto-file: a\n") = [lit "# proto-file: a"] := by
    decide
  have h1 : isHeaderLine (lit "# proto-file: a") = true := by decide
  have hb : headerBlock longBeforeFileInput = [longLine, lit "# proto-file: a"] := by
    unfold headerBlock longBeforeFileInput
    rw [inputLines_longLine, hlines]
    simp only [List.takeWhile_cons, List.takeWhile_nil, isHeaderLine_longLine, h1,
      if_true]
  have c1 : directiveCount keyFile [lit "# proto-file: a"] = 1 := by decide
  have c2 : directiveCount keyMessage [lit "# proto-file: a"] = 0 := by decide
  refine ⟨hb, ?_, ?_, ?_, by decide⟩
  · rw [hb, directiveCount_cons, isDirective_longLine, c1]
    simp
  · rw [hb, directiveCount_cons, isDirective_longLine, c2]
    simp
  · unfold extractHeaders longBeforeFileInput
    rw [scanLines_longLine]
    decide

end TextprotoValidator
